import Mathlib

/-!
Verification of the turnstile propositional-logic engine.

This file is a shallow embedding, in Lean 4, of the engine's core:
the formula data model, the lexer, the recursive-descent parser, the
printer, the truth-table engine, and the natural-deduction proof
checker.  Every definition is translated from the TypeScript source.

Modelling conventions, used throughout:

* TypeScript strings are modelled as `List Char` at the lexer level and
  as `String` at API boundaries.  A Lean `Char` is one Unicode scalar
  value, which for inputs inside the Basic Multilingual Plane (all the
  operator symbols of this language are) coincides with one UTF-16 code
  unit, the unit of JavaScript string indexing.
* A thrown JavaScript exception is modelled as `Option.none`; code that
  cannot throw returns `some` values everywhere.
* JavaScript bitwise operators coerce to 32-bit integers (ToInt32); they
  are modelled on `Int` with an explicit balanced modulus `2 ^ 32`.
* The printer's fractional precedences (4, 4.1, ...) are scaled by ten
  to integers (40, 41, ...).  The source only ever compares an integer
  rank with a rank of the form k or k + 0.1, and every such comparison
  of IEEE doubles agrees with the comparison of the scaled integers.
* Error-message strings keep the source's wording up to punctuation;
  the engine's own spec designates message text as purely diagnostic.
-/

/-! ## Formula data model (`types.ts`, `parser.ts`) -/

/-- The formula AST: tagged variants `var`, `bottom`, `not`, `and`, `or`,
`implies`, `iff`, mirroring the `Formula` union type of `types.ts`. -/
inductive Formula where
  | var (name : String)
  | bottom
  | not (operand : Formula)
  | and (left right : Formula)
  | or (left right : Formula)
  | implies (left right : Formula)
  | iff (left right : Formula)
deriving DecidableEq

/-- `formulaEquals` from `parser.ts`: structural equality of formulas. -/
def formulaEquals (a b : Formula) : Bool :=
  match a, b with
  | .var n, .var n2 => n == n2
  | .bottom, .bottom => true
  | .not x, .not y => formulaEquals x y
  | .and l r, .and l2 r2 => formulaEquals l l2 && formulaEquals r r2
  | .or l r, .or l2 r2 => formulaEquals l l2 && formulaEquals r r2
  | .implies l r, .implies l2 r2 => formulaEquals l l2 && formulaEquals r r2
  | .iff l r, .iff l2 r2 => formulaEquals l l2 && formulaEquals r r2
  | _, _ => false

/-- Display modes of the printer (`types.ts`). -/
inductive DisplayMode where
  | ascii
  | utf8
deriving DecidableEq

/-! ## Printer (`printer.ts`) -/

/-- The `PRECEDENCE` table of `printer.ts`, scaled by ten:
iff 1, implies 2, or 3, and 4, not 5, var and bottom 6. -/
def precedenceOf : Formula → Nat
  | .iff _ _ => 10
  | .implies _ _ => 20
  | .or _ _ => 30
  | .and _ _ => 40
  | .not _ => 50
  | .var _ => 60
  | .bottom => 60

/-- Operator text for AND, with the surrounding spaces of the `SYMBOLS`
table of `printer.ts`. -/
def andSym : DisplayMode → List Char
  | .ascii => [' ', '/', '\\', ' ']
  | .utf8 => [' ', '∧', ' ']

/-- Operator text for OR. -/
def orSym : DisplayMode → List Char
  | .ascii => [' ', '\\', '/', ' ']
  | .utf8 => [' ', '∨', ' ']

/-- Operator text for IMPLIES. -/
def impliesSym : DisplayMode → List Char
  | .ascii => [' ', '-', '>', ' ']
  | .utf8 => [' ', '→', ' ']

/-- Operator text for IFF. -/
def iffSym : DisplayMode → List Char
  | .ascii => [' ', '<', '-', '>', ' ']
  | .utf8 => [' ', '↔', ' ']

/-- Operator text for NOT (no surrounding spaces). -/
def notSym : DisplayMode → List Char
  | .ascii => ['~']
  | .utf8 => ['¬']

/-- Text for BOTTOM. -/
def bottomSym : DisplayMode → List Char
  | .ascii => ['_', '|', '_']
  | .utf8 => ['⊥']

/-- The recursive worker `print` of `printer.ts`.  `parentPrecedence` is
the caller's precedence rank (scaled by ten); the +0.1 associativity
bias of the source becomes +1.  The result is wrapped in parentheses
exactly when this node's precedence is strictly below the parent's. -/
def printChars (f : Formula) (m : DisplayMode) (parentPrecedence : Nat) : List Char :=
  let result : List Char :=
    match f with
    | .var name => name.data
    | .bottom => bottomSym m
    | .not operand => notSym m ++ printChars operand m 50
    | .and l r => printChars l m 40 ++ andSym m ++ printChars r m 41
    | .or l r => printChars l m 30 ++ orSym m ++ printChars r m 31
    | .implies l r => printChars l m 21 ++ impliesSym m ++ printChars r m 20
    | .iff l r => printChars l m 10 ++ iffSym m ++ printChars r m 11
  if precedenceOf f < parentPrecedence then '(' :: (result ++ [')']) else result

/-- `printFormula` of `printer.ts`: print with no outer parentheses. -/
def printFormula (f : Formula) (m : DisplayMode) : String :=
  String.mk (printChars f m 0)

/-! ## Lexer (`lexer.ts`) -/

/-- Token types of `types.ts`. -/
inductive TokType where
  | VAR
  | NOT
  | AND
  | OR
  | IMPLIES
  | IFF
  | BOTTOM
  | LPAREN
  | RPAREN
  | EOF
deriving DecidableEq

/-- A lexer token: type, source text, and position.  The source stores
`value` as a string; we keep the characters.  Positions count string
indexing units from zero, exactly as `this.position` does in
`lexer.ts`. -/
structure Token where
  type : TokType
  value : List Char
  position : Nat
deriving DecidableEq

/-- The JavaScript regular-expression class `\s`, used by
`skipWhitespace`: ASCII whitespace plus the Unicode space separators,
line and paragraph separators, and the BOM. -/
def isWhitespaceJS (c : Char) : Bool :=
  c.val == 32 || c.val == 9 || c.val == 10 || c.val == 11 || c.val == 12 ||
  c.val == 13 || c.val == 0xa0 || c.val == 0x1680 ||
  (0x2000 ≤ c.val && c.val ≤ 0x200a) || c.val == 0x2028 || c.val == 0x2029 ||
  c.val == 0x202f || c.val == 0x205f || c.val == 0x3000 || c.val == 0xfeff

/-- `isAlpha` of `lexer.ts`: the class `[A-Za-z]`. -/
def isAlphaChar (c : Char) : Bool :=
  (65 ≤ c.val && c.val ≤ 90) || (97 ≤ c.val && c.val ≤ 122)

/-- `isAlphaNumeric` of `lexer.ts`: the class `[A-Za-z0-9]`. -/
def isAlnumChar (c : Char) : Bool :=
  isAlphaChar c || (48 ≤ c.val && c.val ≤ 57)

/-- The lexer.  `lexer.ts` is a class whose `tokenize` repeatedly calls
`nextToken`; `nextToken` first skips whitespace (one character per
recursive step here, which iterates the same loop), returns `EOF` at
the end of input, and otherwise dispatches on the current character
with one- and two-character lookahead (`peek`), in exactly the order
of the source if-chain; the two- and three-character lexemes test the
lookahead with `head?` on the remaining input.  An identifier takes
the maximal `[A-Za-z0-9]*` run; an unrecognised character becomes a
one-character `VAR` token, as in the source. -/
def lex : List Char → Nat → List Token
  | [], pos => [⟨.EOF, [], pos⟩]
  | c :: cs, pos =>
    if isWhitespaceJS c then lex cs (pos + 1)
    else if c = '(' then ⟨.LPAREN, ['('], pos⟩ :: lex cs (pos + 1)
    else if c = ')' then ⟨.RPAREN, [')'], pos⟩ :: lex cs (pos + 1)
    else if c = '~' ∨ c = '¬' then ⟨.NOT, [c], pos⟩ :: lex cs (pos + 1)
    else if c = '&' ∨ c = '∧' then ⟨.AND, [c], pos⟩ :: lex cs (pos + 1)
    else if c = '/' ∧ cs.head? = some '\\' then
      ⟨.AND, ['/', '\\'], pos⟩ :: lex cs.tail (pos + 2)
    else if c = '∨' then ⟨.OR, ['∨'], pos⟩ :: lex cs (pos + 1)
    else if c = '|' then ⟨.OR, ['|'], pos⟩ :: lex cs (pos + 1)
    else if c = '\\' ∧ cs.head? = some '/' then
      ⟨.OR, ['\\', '/'], pos⟩ :: lex cs.tail (pos + 2)
    else if c = '↔' then ⟨.IFF, ['↔'], pos⟩ :: lex cs (pos + 1)
    else if c = '<' ∧ cs.head? = some '-' ∧ cs.tail.head? = some '>' then
      ⟨.IFF, ['<', '-', '>'], pos⟩ :: lex cs.tail.tail (pos + 3)
    else if c = '→' then ⟨.IMPLIES, ['→'], pos⟩ :: lex cs (pos + 1)
    else if c = '-' ∧ cs.head? = some '>' then
      ⟨.IMPLIES, ['-', '>'], pos⟩ :: lex cs.tail (pos + 2)
    else if c = '⊥' then ⟨.BOTTOM, ['⊥'], pos⟩ :: lex cs (pos + 1)
    else if c = '_' ∧ cs.head? = some '|' ∧ cs.tail.head? = some '_' then
      ⟨.BOTTOM, ['_', '|', '_'], pos⟩ :: lex cs.tail.tail (pos + 3)
    else if isAlphaChar c then
      let name := (c :: cs).takeWhile isAlnumChar
      ⟨.VAR, name, pos⟩ :: lex ((c :: cs).dropWhile isAlnumChar) (pos + name.length)
    else ⟨.VAR, [c], pos⟩ :: lex cs (pos + 1)
termination_by cs _ => cs.length
decreasing_by
  all_goals simp only [List.length_cons]
  all_goals try omega
  all_goals try (simp only [List.length_tail]; omega)
  have halnum : isAlnumChar c = true := by simp [isAlnumChar]; left; assumption
  rw [List.dropWhile_cons_of_pos halnum]
  have hle : ∀ l : List Char, (List.dropWhile isAlnumChar l).length ≤ l.length := by
    intro l
    induction l with
    | nil => simp [List.dropWhile]
    | cons d ds ih =>
      by_cases h : isAlnumChar d
      · simp [List.dropWhile, h]; omega
      · simp [List.dropWhile, h]
  have := hle cs
  omega

/-- `tokenize` of `lexer.ts`, over character lists. -/
def tokenize (input : List Char) : List Token :=
  lex input 0

/-! ## Parser (`parser.ts`)

The recursive-descent parser.  Each `parseX` method of the `Parser`
class becomes a function from the remaining token stream to either a
thrown `ParserError` or the parsed formula together with the strictly
shorter remaining stream; each `while` loop over a binary operator
becomes a `Loop` function returning a no-longer stream.  The length
bounds carried in the result types justify termination. -/

/-- A positioned parse error (`ParseError` of `types.ts`). -/
structure ParseErr where
  message : String
  position : Nat
deriving DecidableEq

/-- `ParseResult<Formula>` of `types.ts`. -/
inductive ParseResult where
  | success (value : Formula)
  | failure (error : ParseErr)
deriving DecidableEq

/-- `Parser.current()`: the head of the remaining token stream.  The
source falls back to a synthetic EOF token (at position
`tokens.length`) when reading past the end of the array; that fallback
is unreachable for lexer-produced streams, which always retain their
final EOF token, and this embedding uses position 0 in it. -/
def currentTok (ts : List Token) : Token :=
  match ts with
  | t :: _ => t
  | [] => ⟨.EOF, [], 0⟩

/-- The right-associative fold at the end of `parseImplies`: the source
collects the operands and then builds `A -> (B -> (...))` from the
right; this recursion produces the same tree. -/
def buildImpliesChain (first : Formula) (rest : List Formula) : Formula :=
  match rest with
  | [] => first
  | f :: fs => .implies first (buildImpliesChain f fs)

mutual

/-- `parseIff`: `implies ( IFF implies )*`, left-associative. -/
def parseIff (ts : List Token) :
    Except ParseErr (Formula × { l : List Token // l.length < ts.length }) :=
  match parseImplies ts with
  | .error e => .error e
  | .ok ⟨left, ts1, h1⟩ =>
    match iffLoop left ts1 with
    | .error e => .error e
    | .ok ⟨r, ts2, h2⟩ => .ok ⟨r, ts2, by omega⟩
termination_by (ts.length, 9)
decreasing_by
  all_goals first
    | exact Prod.Lex.right _ (by omega)
    | exact Prod.Lex.left _ _ (by omega)

/-- The `while (this.check('IFF'))` loop of `parseIff`. -/
def iffLoop (acc : Formula) (ts : List Token) :
    Except ParseErr (Formula × { l : List Token // l.length ≤ ts.length }) :=
  match ts with
  | t :: ts1 =>
    if t.type = .IFF then
      match parseImplies ts1 with
      | .error e => .error e
      | .ok ⟨right, ts2, h2⟩ =>
        match iffLoop (.iff acc right) ts2 with
        | .error e => .error e
        | .ok ⟨r, ts3, h3⟩ => .ok ⟨r, ts3, by simp only [List.length_cons]; omega⟩
    else .ok ⟨acc, t :: ts1, by omega⟩
  | [] => .ok ⟨acc, [], by omega⟩
termination_by (ts.length, 8)
decreasing_by
  all_goals first
    | exact Prod.Lex.right _ (by omega)
    | exact Prod.Lex.left _ _ (by simp only [List.length_cons]; omega)

/-- `parseImplies`: collects `or ( IMPLIES or )*` operands, then folds
them right-associatively. -/
def parseImplies (ts : List Token) :
    Except ParseErr (Formula × { l : List Token // l.length < ts.length }) :=
  match parseOr ts with
  | .error e => .error e
  | .ok ⟨first, ts1, h1⟩ =>
    match impliesLoop ts1 with
    | .error e => .error e
    | .ok ⟨rest, ts2, h2⟩ => .ok ⟨buildImpliesChain first rest, ts2, by omega⟩
termination_by (ts.length, 7)
decreasing_by
  all_goals first
    | exact Prod.Lex.right _ (by omega)
    | exact Prod.Lex.left _ _ (by omega)

/-- The operand-collecting `while (this.check('IMPLIES'))` loop of
`parseImplies`. -/
def impliesLoop (ts : List Token) :
    Except ParseErr (List Formula × { l : List Token // l.length ≤ ts.length }) :=
  match ts with
  | t :: ts1 =>
    if t.type = .IMPLIES then
      match parseOr ts1 with
      | .error e => .error e
      | .ok ⟨f, ts2, h2⟩ =>
        match impliesLoop ts2 with
        | .error e => .error e
        | .ok ⟨fs, ts3, h3⟩ => .ok ⟨f :: fs, ts3, by simp only [List.length_cons]; omega⟩
    else .ok ⟨[], t :: ts1, by omega⟩
  | [] => .ok ⟨[], [], by omega⟩
termination_by (ts.length, 6)
decreasing_by
  all_goals first
    | exact Prod.Lex.right _ (by omega)
    | exact Prod.Lex.left _ _ (by simp only [List.length_cons]; omega)

/-- `parseOr`: `and ( OR and )*`, left-associative. -/
def parseOr (ts : List Token) :
    Except ParseErr (Formula × { l : List Token // l.length < ts.length }) :=
  match parseAnd ts with
  | .error e => .error e
  | .ok ⟨left, ts1, h1⟩ =>
    match orLoop left ts1 with
    | .error e => .error e
    | .ok ⟨r, ts2, h2⟩ => .ok ⟨r, ts2, by omega⟩
termination_by (ts.length, 5)
decreasing_by
  all_goals first
    | exact Prod.Lex.right _ (by omega)
    | exact Prod.Lex.left _ _ (by omega)

/-- The `while (this.check('OR'))` loop of `parseOr`. -/
def orLoop (acc : Formula) (ts : List Token) :
    Except ParseErr (Formula × { l : List Token // l.length ≤ ts.length }) :=
  match ts with
  | t :: ts1 =>
    if t.type = .OR then
      match parseAnd ts1 with
      | .error e => .error e
      | .ok ⟨right, ts2, h2⟩ =>
        match orLoop (.or acc right) ts2 with
        | .error e => .error e
        | .ok ⟨r, ts3, h3⟩ => .ok ⟨r, ts3, by simp only [List.length_cons]; omega⟩
    else .ok ⟨acc, t :: ts1, by omega⟩
  | [] => .ok ⟨acc, [], by omega⟩
termination_by (ts.length, 4)
decreasing_by
  all_goals first
    | exact Prod.Lex.right _ (by omega)
    | exact Prod.Lex.left _ _ (by simp only [List.length_cons]; omega)

/-- `parseAnd`: `unary ( AND unary )*`, left-associative. -/
def parseAnd (ts : List Token) :
    Except ParseErr (Formula × { l : List Token // l.length < ts.length }) :=
  match parseUnary ts with
  | .error e => .error e
  | .ok ⟨left, ts1, h1⟩ =>
    match andLoop left ts1 with
    | .error e => .error e
    | .ok ⟨r, ts2, h2⟩ => .ok ⟨r, ts2, by omega⟩
termination_by (ts.length, 3)
decreasing_by
  all_goals first
    | exact Prod.Lex.right _ (by omega)
    | exact Prod.Lex.left _ _ (by omega)

/-- The `while (this.check('AND'))` loop of `parseAnd`. -/
def andLoop (acc : Formula) (ts : List Token) :
    Except ParseErr (Formula × { l : List Token // l.length ≤ ts.length }) :=
  match ts with
  | t :: ts1 =>
    if t.type = .AND then
      match parseUnary ts1 with
      | .error e => .error e
      | .ok ⟨right, ts2, h2⟩ =>
        match andLoop (.and acc right) ts2 with
        | .error e => .error e
        | .ok ⟨r, ts3, h3⟩ => .ok ⟨r, ts3, by simp only [List.length_cons]; omega⟩
    else .ok ⟨acc, t :: ts1, by omega⟩
  | [] => .ok ⟨acc, [], by omega⟩
termination_by (ts.length, 2)
decreasing_by
  all_goals first
    | exact Prod.Lex.right _ (by omega)
    | exact Prod.Lex.left _ _ (by simp only [List.length_cons]; omega)

/-- `parseUnary`: `NOT unary | primary`; stacked negations recurse. -/
def parseUnary (ts : List Token) :
    Except ParseErr (Formula × { l : List Token // l.length < ts.length }) :=
  match ts with
  | t :: ts1 =>
    if t.type = .NOT then
      match parseUnary ts1 with
      | .error e => .error e
      | .ok ⟨operand, ts2, h2⟩ => .ok ⟨.not operand, ts2, by simp only [List.length_cons]; omega⟩
    else
      match parsePrimary (t :: ts1) with
      | .error e => .error e
      | .ok ⟨f, ts2, h2⟩ => .ok ⟨f, ts2, h2⟩
  | [] =>
    match parsePrimary [] with
    | .error e => .error e
    | .ok ⟨f, ts2, h2⟩ => .ok ⟨f, ts2, h2⟩
termination_by (ts.length, 1)
decreasing_by
  all_goals first
    | exact Prod.Lex.right _ (by omega)
    | exact Prod.Lex.left _ _ (by simp only [List.length_cons]; omega)

/-- `parsePrimary`: `VAR | BOTTOM | LPAREN formula RPAREN`, throwing a
positioned `ParserError` on anything else. -/
def parsePrimary (ts : List Token) :
    Except ParseErr (Formula × { l : List Token // l.length < ts.length }) :=
  match ts with
  | t :: ts1 =>
    if t.type = .VAR then .ok ⟨.var (String.mk t.value), ts1, by simp only [List.length_cons]; omega⟩
    else if t.type = .BOTTOM then .ok ⟨.bottom, ts1, by simp only [List.length_cons]; omega⟩
    else if t.type = .LPAREN then
      match parseIff ts1 with
      | .error e => .error e
      | .ok ⟨f, ts2, h2⟩ =>
        let c := currentTok ts2
        if c.type = .RPAREN then
          .ok ⟨f, ts2.tail, by
            have ht : ts2.tail.length = ts2.length - 1 := List.length_tail ts2
            simp only [List.length_cons] at h2 ⊢
            omega⟩
        else .error ⟨"Expected closing paren but found " ++ String.mk c.value, c.position⟩
    else
      .error ⟨"Expected variable, bottom, or opening paren but found " ++
        String.mk t.value, t.position⟩
  | [] => .error ⟨"Expected variable, bottom, or opening paren but found ", 0⟩
termination_by (ts.length, 0)
decreasing_by
  all_goals first
    | exact Prod.Lex.right _ (by omega)
    | exact Prod.Lex.left _ _ (by simp only [List.length_cons]; omega)

end

/-- `Parser.parse`: parse a full formula and require that the remaining
token is EOF, converting a thrown `ParserError` into a failure
result. -/
def parseTokens (ts : List Token) : ParseResult :=
  match parseIff ts with
  | .ok ⟨f, rest, _⟩ =>
    let c := currentTok rest
    if c.type = .EOF then .success f
    else .failure ⟨"Unexpected token " ++ String.mk c.value ++ " after formula", c.position⟩
  | .error e => .failure e

/-- `parseFormula` of `parser.ts`: tokenize, then parse. -/
def parseFormula (input : String) : ParseResult :=
  parseTokens (lex input.data 0)

/-! ## Truth-table engine (`evaluate.ts`, `generate.ts`) -/

/-- The variable-collecting walk inside `extractVariables` of
`parser.ts`, before deduplication. -/
def collectVars : Formula → List String
  | .var n => [n]
  | .bottom => []
  | .not g => collectVars g
  | .and l r => collectVars l ++ collectVars r
  | .or l r => collectVars l ++ collectVars r
  | .implies l r => collectVars l ++ collectVars r
  | .iff l r => collectVars l ++ collectVars r

/-- Lexicographic comparison of character lists by code point, the
order JavaScript's `<` induces on strings of Basic-Multilingual-Plane
characters (where code-unit order and code-point order agree). -/
def charListLe : List Char → List Char → Bool
  | [], _ => true
  | _ :: _, [] => false
  | a :: as, b :: bs =>
    if a.val < b.val then true
    else if b.val < a.val then false
    else charListLe as bs

/-- The JavaScript string order: `a <= b` on strings. -/
def jsStringLe (a b : String) : Bool :=
  charListLe a.data b.data

/-- `Array.sort()` without a comparator on an array of strings sorts by
the JavaScript string order; on distinct keys any comparison sort
produces the same result, so an insertion sort models it exactly. -/
def sortStrings (l : List String) : List String :=
  l.insertionSort (fun a b => jsStringLe a b = true)

/-- `extractVariables` of `parser.ts`: collect into a `Set`, then sort
ascending.  The source's `Set` keeps first occurrences while
`List.dedup` may keep other representatives, but the subsequent sort
makes the two agree: both deduplications enumerate the same set of
names without repetition, and sorting a duplicate-free enumeration of
a set by a linear order always yields the same sequence. -/
def extractVariables (f : Formula) : List String :=
  sortStrings (collectVars f).dedup

/-- `evaluate` of `evaluate.ts`.  The assignment record is an
association list; a missing variable makes the source throw, modelled
as `none`.  The `&&`, `||` and `!_ || _` connectives short-circuit
exactly as the JavaScript operators do, so a missing variable in an
unevaluated right operand does not raise. -/
def evaluate (f : Formula) (assignments : List (String × Bool)) : Option Bool :=
  match f with
  | .var n =>
    match assignments.lookup n with
    | none => none
    | some v => some v
  | .bottom => some false
  | .not g =>
    match evaluate g assignments with
    | none => none
    | some b => some (!b)
  | .and l r =>
    match evaluate l assignments with
    | none => none
    | some false => some false
    | some true => evaluate r assignments
  | .or l r =>
    match evaluate l assignments with
    | none => none
    | some true => some true
    | some false => evaluate r assignments
  | .implies l r =>
    match evaluate l assignments with
    | none => none
    | some false => some true
    | some true => evaluate r assignments
  | .iff l r =>
    match evaluate l assignments with
    | none => none
    | some lv =>
      match evaluate r assignments with
      | none => none
      | some rv => some (lv == rv)

/-- JavaScript ToInt32: reduce into the balanced range
`[-2^31, 2^31)`. -/
def jsToInt32 (n : Int) : Int :=
  Int.bmod n (2 ^ 32)

/-- The JavaScript expression `1 << k`: the shift count is taken modulo
32 and the result is a signed 32-bit integer. -/
def jsShlOne (k : Nat) : Int :=
  jsToInt32 (2 ^ (k % 32))

/-- The JavaScript expression `a & b`: both operands are coerced to
32-bit integers, combined bitwise, and read back as signed. -/
def jsAnd (a b : Int) : Int :=
  jsToInt32 (Int.ofNat (Nat.land (a % 2 ^ 32).toNat (b % 2 ^ 32).toNat))

/-- `generateAllAssignments` of `evaluate.ts`: `2^n` assignment records
in the order where the first row is all-true; the generator's loop
bound `1 << n` and the per-bit masks use JavaScript 32-bit shifts. -/
def generateAllAssignments (vars : List String) : List (List (String × Bool)) :=
  let n := vars.length
  let total : Int := jsShlOne n
  (List.range total.toNat).map (fun i =>
    vars.enum.map (fun jv =>
      (jv.2, jsAnd (Int.ofNat i) (jsShlOne (n - 1 - jv.1)) == 0)))

/-- The loop of `isTautology` of `evaluate.ts`: false as soon as one
assignment falsifies the formula. -/
def tautologyLoop (f : Formula) : List (List (String × Bool)) → Option Bool
  | [] => some true
  | a :: rest =>
    match evaluate f a with
    | none => none
    | some false => some false
    | some true => tautologyLoop f rest

/-- `isTautology` of `evaluate.ts`. -/
def isTautology (f : Formula) (vars : List String) : Option Bool :=
  tautologyLoop f (generateAllAssignments vars)

/-- The loop of `isContradiction` of `evaluate.ts`: false as soon as
one assignment satisfies the formula. -/
def contradictionLoop (f : Formula) : List (List (String × Bool)) → Option Bool
  | [] => some true
  | a :: rest =>
    match evaluate f a with
    | none => none
    | some true => some false
    | some false => contradictionLoop f rest

/-- `isContradiction` of `evaluate.ts`. -/
def isContradiction (f : Formula) (vars : List String) : Option Bool :=
  contradictionLoop f (generateAllAssignments vars)

/-- The loop of `isSatisfiable` of `evaluate.ts`: true as soon as one
assignment satisfies the formula. -/
def satisfiableLoop (f : Formula) : List (List (String × Bool)) → Option Bool
  | [] => some false
  | a :: rest =>
    match evaluate f a with
    | none => none
    | some true => some true
    | some false => satisfiableLoop f rest

/-- `isSatisfiable` of `evaluate.ts`. -/
def isSatisfiable (f : Formula) (vars : List String) : Option Bool :=
  satisfiableLoop f (generateAllAssignments vars)

/-- One row of a truth table (`TruthTableEntry` of `types.ts`). -/
structure TruthTableEntry where
  inputs : List (String × Bool)
  result : Bool
deriving DecidableEq

/-- `TruthTable` of `types.ts`.  The source's field `variables` is a
reserved word in Lean and is named `vars` here. -/
structure TruthTable where
  formula : Formula
  vars : List String
  rows : List TruthTableEntry
  isTautology : Bool
  isContradiction : Bool
  isSatisfiable : Bool
deriving DecidableEq

/-- `generateTruthTable` of `generate.ts`: one row per generated
assignment, then the three classification flags. -/
def generateTruthTable (f : Formula) : Option TruthTable :=
  let vars := extractVariables f
  match (generateAllAssignments vars).mapM
      (fun a => (evaluate f a).map (fun r => TruthTableEntry.mk a r)) with
  | none => none
  | some rows =>
    match isTautology f vars with
    | none => none
    | some taut =>
      match isContradiction f vars with
      | none => none
      | some contra =>
        match isSatisfiable f vars with
        | none => none
        | some sat => some ⟨f, vars, rows, taut, contra, sat⟩

/-- The combined variable list used by `entails` and
`findCounterexample`: union of all premise variables and the conclusion
variables, deduplicated and sorted. -/
def allVarsOf (premises : List Formula) (conclusion : Formula) : List String :=
  sortStrings ((premises.map extractVariables).flatten ++ extractVariables conclusion).dedup

/-- `premises.every((p) => evaluate(p, assignments))`: short-circuits on
the first false premise, propagating a thrown evaluation. -/
def premisesAllTrue (premises : List Formula) (a : List (String × Bool)) : Option Bool :=
  match premises with
  | [] => some true
  | p :: ps =>
    match evaluate p a with
    | none => none
    | some false => some false
    | some true => premisesAllTrue ps a

/-- The loop of `entails` of `generate.ts`: false on the first
assignment making every premise true and the conclusion false.  The
conclusion is only evaluated when the premises all held, mirroring the
source's short-circuiting `&&`. -/
def entailsLoop (premises : List Formula) (conclusion : Formula) :
    List (List (String × Bool)) → Option Bool
  | [] => some true
  | a :: rest =>
    match premisesAllTrue premises a with
    | none => none
    | some false => entailsLoop premises conclusion rest
    | some true =>
      match evaluate conclusion a with
      | none => none
      | some false => some false
      | some true => entailsLoop premises conclusion rest

/-- `entails` of `generate.ts`. -/
def entails (premises : List Formula) (conclusion : Formula) : Option Bool :=
  entailsLoop premises conclusion (generateAllAssignments (allVarsOf premises conclusion))

/-- The loop of `findCounterexample` of `generate.ts`: the first
assignment making every premise true and the conclusion false, if any.
The outer `Option` models a thrown evaluation; the inner one is the
source's `assignment | null` result. -/
def findCounterexampleLoop (premises : List Formula) (conclusion : Formula) :
    List (List (String × Bool)) → Option (Option (List (String × Bool)))
  | [] => some none
  | a :: rest =>
    match premisesAllTrue premises a with
    | none => none
    | some false => findCounterexampleLoop premises conclusion rest
    | some true =>
      match evaluate conclusion a with
      | none => none
      | some false => some (some a)
      | some true => findCounterexampleLoop premises conclusion rest

/-- `findCounterexample` of `generate.ts`. -/
def findCounterexample (premises : List Formula) (conclusion : Formula) :
    Option (Option (List (String × Bool))) :=
  findCounterexampleLoop premises conclusion
    (generateAllAssignments (allVarsOf premises conclusion))

/-! ## Proof checker (`rules.ts`, `validator.ts`, `checker.ts`) -/

/-- The sixteen inference-rule tags of `types.ts`.  The source's
`theorem` tag is a reserved word in Lean and is named `thm` here. -/
inductive InferenceRule where
  | assumption
  | and_intro
  | and_elim_l
  | and_elim_r
  | or_intro_l
  | or_intro_r
  | or_elim
  | implies_intro
  | implies_elim
  | not_intro
  | not_elim
  | iff_intro
  | iff_elim
  | bottom_elim
  | raa
  | thm
deriving DecidableEq

/-- The wire name of a rule, as interpolated into error messages. -/
def ruleToString : InferenceRule → String
  | .assumption => "assumption"
  | .and_intro => "and_intro"
  | .and_elim_l => "and_elim_l"
  | .and_elim_r => "and_elim_r"
  | .or_intro_l => "or_intro_l"
  | .or_intro_r => "or_intro_r"
  | .or_elim => "or_elim"
  | .implies_intro => "implies_intro"
  | .implies_elim => "implies_elim"
  | .not_intro => "not_intro"
  | .not_elim => "not_elim"
  | .iff_intro => "iff_intro"
  | .iff_elim => "iff_elim"
  | .bottom_elim => "bottom_elim"
  | .raa => "raa"
  | .thm => "theorem"

/-- A proof step (`ProofStep` of `types.ts`). -/
structure ProofStep where
  id : String
  formula : Formula
  rule : InferenceRule
  justification : List String
  depth : Nat
  theoremId : Option String
deriving DecidableEq

/-- The stable error codes of the checker (`types.ts`). -/
inductive ErrorCode where
  | EMPTY_PROOF
  | INSUFFICIENT_JUSTIFICATIONS
  | TOO_MANY_JUSTIFICATIONS
  | JUSTIFICATION_NOT_FOUND
  | INACCESSIBLE_JUSTIFICATION
  | WRONG_PREMISE_TYPE
  | WRONG_CONCLUSION_TYPE
  | CONCLUSION_MISMATCH
  | INVALID_SUBPROOF
  | SUBPROOF_MISMATCH
  | SUBPROOF_CONCLUSION_MISMATCH
  | INVALID_JUSTIFICATION
  | MISSING_THEOREM_ID
  | THEOREM_NOT_FOUND
  | THEOREM_MISMATCH
  | UNKNOWN_RULE
deriving DecidableEq

/-- `ValidationError` of `types.ts`. -/
structure ValidationError where
  stepId : String
  message : String
  code : ErrorCode
deriving DecidableEq

/-- `ProofLineInfo` of `validator.ts`.  The source also declares an
optional `subproofStart` field that is never written; it is omitted. -/
structure ProofLineInfo where
  step : ProofStep
  index : Nat
  accessible : Bool
  isSubproofStart : Bool
  isSubproofEnd : Bool
  subproofEnd : Option Nat
deriving DecidableEq

/-- `ValidationContext` of `validator.ts`. -/
structure ValidationContext where
  lines : List ProofLineInfo
  currentIndex : Nat
  currentDepth : Nat
  premises : List Formula
deriving DecidableEq

/-- `ProvenTheorem` of `types.ts` (the fields the checker reads). -/
structure ProvenTheorem where
  id : String
  premises : List Formula
  conclusion : Formula
deriving DecidableEq

/-- `ProofCheckResult` of `types.ts`. -/
structure ProofCheckResult where
  valid : Bool
  complete : Bool
  errors : List ValidationError
deriving DecidableEq

/-- `opensSubproof` of `rules.ts`. -/
def opensSubproof (rule : InferenceRule) : Bool :=
  rule == .assumption

/-- `getRequiredJustificationCount` of `rules.ts`: the `[min, max]`
justification arity of each rule. -/
def getRequiredJustificationCount : InferenceRule → Nat × Nat
  | .assumption => (0, 0)
  | .and_intro => (2, 2)
  | .and_elim_l => (1, 1)
  | .and_elim_r => (1, 1)
  | .or_intro_l => (1, 1)
  | .or_intro_r => (1, 1)
  | .or_elim => (3, 3)
  | .implies_intro => (1, 1)
  | .implies_elim => (2, 2)
  | .not_intro => (1, 1)
  | .not_elim => (1, 1)
  | .iff_intro => (2, 2)
  | .iff_elim => (2, 2)
  | .bottom_elim => (1, 1)
  | .raa => (1, 1)
  | .thm => (0, 0)

/-- Closing one scope in `buildProofLineInfo`: record the subproof's
last line on its opening assumption and mark every line from the start
of the scope through the current end of `lines` inaccessible.  Both
the in-loop close (where `lines` holds the steps before the current
one) and the end-of-proof close use exactly this update. -/
def closeScope (lines : List ProofLineInfo) (startIndex : Nat) : List ProofLineInfo :=
  lines.enum.map (fun jl =>
    let line := jl.2
    let line1 :=
      if jl.1 = startIndex then { line with subproofEnd := some (lines.length - 1) } else line
    if startIndex ≤ jl.1 then { line1 with accessible := false } else line1)

/-- The `while` loop of `buildProofLineInfo` that closes every open
scope deeper than the current step, plus a same-depth sibling scope
when a new subproof starts at the same depth. -/
def closeScopes (lines : List ProofLineInfo) (stack : List (Nat × Nat))
    (stepDepth : Nat) (newSameDepth : Bool) : List ProofLineInfo × List (Nat × Nat) :=
  match stack with
  | [] => (lines, [])
  | (startIndex, d) :: rest =>
    if stepDepth < d || (newSameDepth && stepDepth == d) then
      closeScopes (closeScope lines startIndex) rest stepDepth newSameDepth
    else (lines, (startIndex, d) :: rest)

/-- The end-of-proof loop of `buildProofLineInfo` closing every scope
still open after the last step. -/
def closeAll (lines : List ProofLineInfo) (stack : List (Nat × Nat)) : List ProofLineInfo :=
  match stack with
  | [] => lines
  | (startIndex, _) :: rest => closeAll (closeScope lines startIndex) rest

/-- The final pass of `buildProofLineInfo`: mark the last line of each
closed subproof.  The source mutates only `isSubproofEnd` while
iterating, and reads only `isSubproofStart` and `subproofEnd`, so the
pass equals this two-step collect-then-mark. -/
def markSubproofEnds (lines : List ProofLineInfo) : List ProofLineInfo :=
  let ends := lines.filterMap (fun line =>
    if line.isSubproofStart then line.subproofEnd else none)
  lines.enum.map (fun jl =>
    if ends.contains jl.1 then { jl.2 with isSubproofEnd := true } else jl.2)

/-- The main loop of `buildProofLineInfo`, walking the steps in order
with the stack of open scopes.  `i` is the index of the next step and
`prevDepth` the depth of the previous one (0 at the start). -/
def buildLoop (steps : List ProofStep) (i : Nat) (prevDepth : Nat)
    (lines : List ProofLineInfo) (stack : List (Nat × Nat)) :
    List ProofLineInfo × List (Nat × Nat) :=
  match steps with
  | [] => (lines, stack)
  | step :: rest =>
    let isAssumption := opensSubproof step.rule
    let depthIncreased := decide (prevDepth < step.depth)
    let newSubproofAtSameDepth :=
      isAssumption && decide (0 < step.depth) && (step.depth == prevDepth)
    let isSubproofStart := isAssumption && (depthIncreased || newSubproofAtSameDepth)
    let closed := closeScopes lines stack step.depth (newSubproofAtSameDepth = true)
    let lineInfo : ProofLineInfo := ⟨step, i, true, isSubproofStart, false, none⟩
    let stack2 := if isSubproofStart then (i, step.depth) :: closed.2 else closed.2
    buildLoop rest (i + 1) step.depth (closed.1 ++ [lineInfo]) stack2

/-- `buildProofLineInfo` of `checker.ts`. -/
def buildProofLineInfo (steps : List ProofStep) : List ProofLineInfo :=
  let built := buildLoop steps 0 0 [] []
  markSubproofEnds (closeAll built.1 built.2)

/-- The downward `for` loop of `getSubproofAncestors`: the first
argument counts the indices still to visit, so `ancestorsLoop lines
(idx + 1) d` visits `idx, idx - 1, ..., 0` starting with current depth
`d`. -/
def ancestorsLoop (lines : List ProofLineInfo) : Nat → Nat → List Nat
  | 0, _ => []
  | k + 1, currentDepth =>
    match lines.get? k with
    | none => ancestorsLoop lines k currentDepth
    | some line =>
      if line.isSubproofStart && decide (line.step.depth < currentDepth) then
        k :: ancestorsLoop lines k line.step.depth
      else ancestorsLoop lines k currentDepth

/-- `getSubproofAncestors` of `checker.ts`: the subproof-opening lines
at strictly decreasing depths above the given index.  (The `none`
branch is unreachable for in-range indices.) -/
def getSubproofAncestors (lines : List ProofLineInfo) (idx : Nat) : List Nat :=
  match lines.get? idx with
  | none => []
  | some line => ancestorsLoop lines (idx + 1) line.step.depth

/-- `isInSameSubproofBranch` of `checker.ts`: every ancestor scope of
the target must still contain the current index. -/
def isInSameSubproofBranch (lines : List ProofLineInfo) (targetIdx currentIdx : Nat) : Bool :=
  (getSubproofAncestors lines targetIdx).all (fun ancestor =>
    match lines.get? ancestor with
    | none => true
    | some ancestorLine =>
      match ancestorLine.subproofEnd with
      | none => true
      | some e =>
        if e < currentIdx then false
        else if currentIdx < ancestor || e < currentIdx then false
        else true)

/-- `isLineAccessible` of `checker.ts`.  The source dereferences
`lines[targetIdx]!`; the out-of-range case cannot arise from
`checkProof` and is mapped to `false`. -/
def isLineAccessible (lines : List ProofLineInfo) (targetIdx currentIdx currentDepth : Nat) :
    Bool :=
  if currentIdx < targetIdx then false
  else
    match lines.get? targetIdx with
    | none => false
    | some targetLine =>
      let targetDepth := targetLine.step.depth
      if targetDepth = 0 then true
      else if currentDepth < targetDepth then isInSameSubproofBranch lines targetIdx currentIdx
      else isInSameSubproofBranch lines targetIdx currentIdx

/-- The `getFormula` helper of `validateRuleApplication`: resolve a
justification id in the context and read its formula.  A `k`-th
justification that does not exist yields `none`, exactly as the
source's `step.justification[k]!` produces `undefined` and the
subsequent lookup fails. -/
def getJustFormula (step : ProofStep) (context : ValidationContext) (k : Nat) : Option Formula :=
  match step.justification.get? k with
  | none => none
  | some justId =>
    match context.lines.find? (fun l => l.step.id == justId) with
    | none => none
    | some l => some l.step.formula

/-- The `getLineInfo` helper of `validateRuleApplication`. -/
def getJustLineInfo (step : ProofStep) (context : ValidationContext) (k : Nat) :
    Option ProofLineInfo :=
  match step.justification.get? k with
  | none => none
  | some justId => context.lines.find? (fun l => l.step.id == justId)

/-- `validateRuleApplication` of `validator.ts`: the per-rule schema
check.  The result is the emitted error list; `none` models the one
spot where the source can throw a `TypeError` (the swapped-order branch
of `implies_elim` reads `maybeAntecedent!` without a guard, so a
missing first justification formula there dereferences `undefined`).
The source's `default: UNKNOWN_RULE` arm is unreachable in this typed
embedding because `InferenceRule` is exactly the sixteen tags. -/
def validateRuleApplication (step : ProofStep) (context : ValidationContext) :
    Option (List ValidationError) :=
  match step.rule with
  | .assumption => some []
  | .and_intro =>
    match getJustFormula step context 0, getJustFormula step context 1 with
    | some left, some right =>
      match step.formula with
      | .and fl fr =>
        if !(formulaEquals fl left) || !(formulaEquals fr right) then
          some [⟨step.id, "Conjunction does not match the justified formulas",
            .CONCLUSION_MISMATCH⟩]
        else some []
      | _ =>
        some [⟨step.id, "Conjunction introduction must produce a conjunction",
          .WRONG_CONCLUSION_TYPE⟩]
    | _, _ => some [⟨step.id, "Missing justification formula", .INVALID_JUSTIFICATION⟩]
  | .and_elim_l =>
    match getJustFormula step context 0 with
    | some (.and cl _) =>
      if !(formulaEquals step.formula cl) then
        some [⟨step.id, "Result must be the left conjunct", .CONCLUSION_MISMATCH⟩]
      else some []
    | _ =>
      some [⟨step.id, "Conjunction elimination requires a conjunction", .WRONG_PREMISE_TYPE⟩]
  | .and_elim_r =>
    match getJustFormula step context 0 with
    | some (.and _ cr) =>
      if !(formulaEquals step.formula cr) then
        some [⟨step.id, "Result must be the right conjunct", .CONCLUSION_MISMATCH⟩]
      else some []
    | _ =>
      some [⟨step.id, "Conjunction elimination requires a conjunction", .WRONG_PREMISE_TYPE⟩]
  | .or_intro_l =>
    match getJustFormula step context 0 with
    | none => some [⟨step.id, "Missing justification formula", .INVALID_JUSTIFICATION⟩]
    | some operand =>
      match step.formula with
      | .or ol _ =>
        if !(formulaEquals ol operand) then
          some [⟨step.id, "The justified formula must appear as the left disjunct",
            .CONCLUSION_MISMATCH⟩]
        else some []
      | _ =>
        some [⟨step.id, "Disjunction introduction must produce a disjunction",
          .WRONG_CONCLUSION_TYPE⟩]
  | .or_intro_r =>
    match getJustFormula step context 0 with
    | none => some [⟨step.id, "Missing justification formula", .INVALID_JUSTIFICATION⟩]
    | some operand =>
      match step.formula with
      | .or _ orr =>
        if !(formulaEquals orr operand) then
          some [⟨step.id, "The justified formula must appear as the right disjunct",
            .CONCLUSION_MISMATCH⟩]
        else some []
      | _ =>
        some [⟨step.id, "Disjunction introduction must produce a disjunction",
          .WRONG_CONCLUSION_TYPE⟩]
  | .or_elim =>
    match getJustFormula step context 0 with
    | some (.or dl dr) =>
      match getJustLineInfo step context 1, getJustLineInfo step context 2 with
      | some sub1, some sub2 =>
        if !sub1.isSubproofStart || sub1.subproofEnd == none then
          some [⟨step.id, "Second justification must be a complete subproof",
            .INVALID_SUBPROOF⟩]
        else if !(formulaEquals sub1.step.formula dl) then
          some [⟨step.id, "First subproof assumption must match the left disjunct",
            .SUBPROOF_MISMATCH⟩]
        else
          match context.lines.get? (sub1.subproofEnd.getD 0) with
          | none =>
            some [⟨step.id, "First subproof must conclude with the target formula",
              .SUBPROOF_CONCLUSION_MISMATCH⟩]
          | some sub1End =>
            if !(formulaEquals sub1End.step.formula step.formula) then
              some [⟨step.id, "First subproof must conclude with the target formula",
                .SUBPROOF_CONCLUSION_MISMATCH⟩]
            else if !sub2.isSubproofStart || sub2.subproofEnd == none then
              some [⟨step.id, "Third justification must be a complete subproof",
                .INVALID_SUBPROOF⟩]
            else if !(formulaEquals sub2.step.formula dr) then
              some [⟨step.id, "Second subproof assumption must match the right disjunct",
                .SUBPROOF_MISMATCH⟩]
            else
              match context.lines.get? (sub2.subproofEnd.getD 0) with
              | none =>
                some [⟨step.id, "Second subproof must conclude with the target formula",
                  .SUBPROOF_CONCLUSION_MISMATCH⟩]
              | some sub2End =>
                if !(formulaEquals sub2End.step.formula step.formula) then
                  some [⟨step.id, "Second subproof must conclude with the target formula",
                    .SUBPROOF_CONCLUSION_MISMATCH⟩]
                else some []
      | _, _ => some [⟨step.id, "Missing subproof justification", .INVALID_JUSTIFICATION⟩]
    | _ =>
      some [⟨step.id, "First justification must be a disjunction", .WRONG_PREMISE_TYPE⟩]
  | .implies_intro =>
    match getJustLineInfo step context 0 with
    | none =>
      some [⟨step.id, "Conditional introduction requires a complete subproof",
        .INVALID_SUBPROOF⟩]
    | some subproofStart =>
      if !subproofStart.isSubproofStart || subproofStart.subproofEnd == none then
        some [⟨step.id, "Conditional introduction requires a complete subproof",
          .INVALID_SUBPROOF⟩]
      else
        match step.formula with
        | .implies fl fr =>
          if !(formulaEquals subproofStart.step.formula fl) then
            some [⟨step.id, "Subproof assumption must match the antecedent",
              .SUBPROOF_MISMATCH⟩]
          else
            match context.lines.get? (subproofStart.subproofEnd.getD 0) with
            | none =>
              some [⟨step.id, "Subproof conclusion must match the consequent",
                .SUBPROOF_CONCLUSION_MISMATCH⟩]
            | some subproofEnd =>
              if !(formulaEquals subproofEnd.step.formula fr) then
                some [⟨step.id, "Subproof conclusion must match the consequent",
                  .SUBPROOF_CONCLUSION_MISMATCH⟩]
              else some []
        | _ =>
          some [⟨step.id, "Conditional introduction must produce a conditional",
            .WRONG_CONCLUSION_TYPE⟩]
  | .implies_elim =>
    match getJustFormula step context 0 with
    | some (.implies cl cr) =>
      match getJustFormula step context 1 with
      | none => some [⟨step.id, "Missing antecedent", .INVALID_JUSTIFICATION⟩]
      | some antecedent =>
        if !(formulaEquals cl antecedent) then
          some [⟨step.id, "Antecedent must match the conditionals antecedent",
            .CONCLUSION_MISMATCH⟩]
        else if !(formulaEquals cr step.formula) then
          some [⟨step.id, "Result must be the conditionals consequent",
            .CONCLUSION_MISMATCH⟩]
        else some []
    | other =>
      match getJustFormula step context 1 with
      | some (.implies ml mr) =>
        match other with
        | some maybeAntecedent =>
          if formulaEquals ml maybeAntecedent && formulaEquals mr step.formula then some []
          else
            some [⟨step.id, "Conditional elimination requires a conditional",
              .WRONG_PREMISE_TYPE⟩]
        | none => none
      | _ =>
        some [⟨step.id, "Conditional elimination requires a conditional",
          .WRONG_PREMISE_TYPE⟩]
  | .not_intro =>
    match getJustLineInfo step context 0 with
    | none =>
      some [⟨step.id, "Negation introduction requires a complete subproof", .INVALID_SUBPROOF⟩]
    | some subproofStart =>
      if !subproofStart.isSubproofStart || subproofStart.subproofEnd == none then
        some [⟨step.id, "Negation introduction requires a complete subproof",
          .INVALID_SUBPROOF⟩]
      else
        match step.formula with
        | .not operand =>
          if !(formulaEquals subproofStart.step.formula operand) then
            some [⟨step.id, "Subproof assumption must match the negation operand",
              .SUBPROOF_MISMATCH⟩]
          else
            match context.lines.get? (subproofStart.subproofEnd.getD 0) with
            | none => some [⟨step.id, "Subproof must end with bottom",
                .SUBPROOF_CONCLUSION_MISMATCH⟩]
            | some subproofEnd =>
              match subproofEnd.step.formula with
              | .bottom => some []
              | _ => some [⟨step.id, "Subproof must end with bottom",
                  .SUBPROOF_CONCLUSION_MISMATCH⟩]
        | _ =>
          some [⟨step.id, "Negation introduction must produce a negation",
            .WRONG_CONCLUSION_TYPE⟩]
  | .not_elim =>
    match getJustFormula step context 0 with
    | some (.not (.not inner)) =>
      if !(formulaEquals inner step.formula) then
        some [⟨step.id, "Result must be the doubly-negated formula", .CONCLUSION_MISMATCH⟩]
      else some []
    | _ =>
      some [⟨step.id, "Double negation elimination requires a double negation",
        .WRONG_PREMISE_TYPE⟩]
  | .iff_intro =>
    match getJustFormula step context 0, getJustFormula step context 1 with
    | some (.implies l1 r1), some (.implies l2 r2) =>
      match step.formula with
      | .iff fl fr =>
        let valid1 := formulaEquals l1 fl && formulaEquals r1 fr &&
          formulaEquals l2 fr && formulaEquals r2 fl
        let valid2 := formulaEquals l2 fl && formulaEquals r2 fr &&
          formulaEquals l1 fr && formulaEquals r1 fl
        if !valid1 && !valid2 then
          some [⟨step.id, "Conditionals must be A implies B and B implies A",
            .CONCLUSION_MISMATCH⟩]
        else some []
      | _ =>
        some [⟨step.id, "Biconditional introduction must produce a biconditional",
          .WRONG_CONCLUSION_TYPE⟩]
    | _, _ =>
      some [⟨step.id, "Biconditional introduction requires two conditionals",
        .WRONG_PREMISE_TYPE⟩]
  | .iff_elim =>
    match getJustFormula step context 0 with
    | some (.iff bl br) =>
      match getJustFormula step context 1 with
      | none => some [⟨step.id, "Missing operand", .INVALID_JUSTIFICATION⟩]
      | some operand =>
        if formulaEquals bl operand && formulaEquals br step.formula then some []
        else if formulaEquals br operand && formulaEquals bl step.formula then some []
        else
          some [⟨step.id, "Result must be the other side of the biconditional",
            .CONCLUSION_MISMATCH⟩]
    | other =>
      match getJustFormula step context 1 with
      | some (.iff ml mr) =>
        match other with
        | some maybeOp =>
          if (formulaEquals ml maybeOp && formulaEquals mr step.formula) ||
             (formulaEquals mr maybeOp && formulaEquals ml step.formula) then some []
          else
            some [⟨step.id, "Biconditional elimination requires a biconditional",
              .WRONG_PREMISE_TYPE⟩]
        | none =>
          some [⟨step.id, "Biconditional elimination requires a biconditional",
            .WRONG_PREMISE_TYPE⟩]
      | _ =>
        some [⟨step.id, "Biconditional elimination requires a biconditional",
          .WRONG_PREMISE_TYPE⟩]
  | .bottom_elim =>
    match getJustFormula step context 0 with
    | some .bottom => some []
    | _ => some [⟨step.id, "Falsum elimination requires bottom", .WRONG_PREMISE_TYPE⟩]
  | .raa =>
    match getJustLineInfo step context 0 with
    | none => some [⟨step.id, "RAA requires a complete subproof", .INVALID_SUBPROOF⟩]
    | some subproofStart =>
      if !subproofStart.isSubproofStart || subproofStart.subproofEnd == none then
        some [⟨step.id, "RAA requires a complete subproof", .INVALID_SUBPROOF⟩]
      else
        match subproofStart.step.formula with
        | .not operand =>
          if !(formulaEquals operand step.formula) then
            some [⟨step.id, "Subproof assumption must be the negation of the conclusion",
              .SUBPROOF_MISMATCH⟩]
          else
            match context.lines.get? (subproofStart.subproofEnd.getD 0) with
            | none => some [⟨step.id, "Subproof must end with bottom",
                .SUBPROOF_CONCLUSION_MISMATCH⟩]
            | some subproofEnd =>
              match subproofEnd.step.formula with
              | .bottom => some []
              | _ => some [⟨step.id, "Subproof must end with bottom",
                  .SUBPROOF_CONCLUSION_MISMATCH⟩]
        | _ =>
          some [⟨step.id, "Subproof assumption must be the negation of the conclusion",
            .SUBPROOF_MISMATCH⟩]
  | .thm =>
    match step.theoremId with
    | none =>
      some [⟨step.id, "Theorem citation requires a theorem ID", .MISSING_THEOREM_ID⟩]
    | some tid =>
      if tid == "" then
        some [⟨step.id, "Theorem citation requires a theorem ID", .MISSING_THEOREM_ID⟩]
      else some []

/-- The reference-resolution pass of `validateStep`: one error per
justification id that does not resolve to a context line or resolves
to an inaccessible one, in justification order. -/
def justificationRefErrors (step : ProofStep) (context : ValidationContext) :
    List ValidationError :=
  step.justification.filterMap (fun justId =>
    match context.lines.find? (fun l => l.step.id == justId) with
    | none =>
      some ⟨step.id, "Justification " ++ justId ++ " not found", .JUSTIFICATION_NOT_FOUND⟩
    | some justLine =>
      if justLine.accessible then none
      else some ⟨step.id, "Line " ++ toString (justLine.index + 1) ++
        " is not accessible (inside closed subproof)", .INACCESSIBLE_JUSTIFICATION⟩)

/-- `validateStep` of `validator.ts`: arity check, then reference
resolution and accessibility of every justification (one error per bad
reference), then — only when no error was emitted so far — the
per-rule schema check.  `none` propagates the unreachable throw of
`validateRuleApplication`. -/
def validateStep (step : ProofStep) (context : ValidationContext) :
    Option (List ValidationError) :=
  let counts := getRequiredJustificationCount step.rule
  if step.justification.length < counts.1 then
    some [⟨step.id, ruleToString step.rule ++ " requires at least " ++ toString counts.1 ++
      " justifications, got " ++ toString step.justification.length,
      .INSUFFICIENT_JUSTIFICATIONS⟩]
  else if counts.2 < step.justification.length then
    some [⟨step.id, ruleToString step.rule ++ " requires at most " ++ toString counts.2 ++
      " justifications, got " ++ toString step.justification.length,
      .TOO_MANY_JUSTIFICATIONS⟩]
  else if (justificationRefErrors step context).isEmpty then
    validateRuleApplication step context
  else some (justificationRefErrors step context)

/-- `isPremise` of `checker.ts`. -/
def isPremise (formula : Formula) (premises : List Formula) : Bool :=
  premises.any (fun p => formulaEquals p formula)

/-- The body of `checkProof`'s per-step loop: build the step's context
(the lines up to and including it, with accessibility recomputed from
the step's position), then the premise shortcut for depth-0
assumptions matching a premise, the theorem-citation check, or
`validateStep`. -/
def stepErrors (premises : List Formula) (theoremLibrary : List ProvenTheorem)
    (lines : List ProofLineInfo) (i : Nat) (step : ProofStep) :
    Option (List ValidationError) :=
  let contextLines := (lines.take (i + 1)).enum.map (fun jl =>
    { jl.2 with accessible := isLineAccessible lines jl.1 i step.depth })
  let context : ValidationContext := ⟨contextLines, i, step.depth, premises⟩
  if step.rule == .assumption && step.depth == 0 && isPremise step.formula premises then
    some []
  else if step.rule == .thm then
    match
      (match step.theoremId with
       | none => (none : Option ProvenTheorem)
       | some tid => theoremLibrary.find? (fun t => t.id == tid)) with
    | none => some [⟨step.id, "Theorem not found in library", .THEOREM_NOT_FOUND⟩]
    | some t =>
      if !(formulaEquals t.conclusion step.formula) then
        some [⟨step.id, "Formula does not match theorem conclusion", .THEOREM_MISMATCH⟩]
      else some []
  else validateStep step context

/-- `checkProof` of `checker.ts`.  An empty proof is invalid with
`EMPTY_PROOF`; otherwise every step is validated in order (its errors
appended to the aggregate list), validity is the absence of errors, and
completeness asks the last step to sit at depth 0 with exactly the
requested conclusion. -/
def checkProof (steps : List ProofStep) (premises : List Formula) (conclusion : Formula)
    (theoremLibrary : List ProvenTheorem) : Option ProofCheckResult :=
  match steps with
  | [] => some ⟨false, false, [⟨"", "Proof is empty", .EMPTY_PROOF⟩]⟩
  | s0 :: rest =>
    let lines := buildProofLineInfo (s0 :: rest)
    match (s0 :: rest).enum.mapM
        (fun p => stepErrors premises theoremLibrary lines p.1 p.2) with
    | none => none
    | some errorLists =>
      let allErrors := errorLists.flatten
      let lastStep := (s0 :: rest).getLast (List.cons_ne_nil s0 rest)
      some ⟨allErrors.isEmpty,
        lastStep.depth == 0 && formulaEquals lastStep.formula conclusion,
        allErrors⟩

/-! ## Auxiliary definitions used by the verification statements -/

/-- A variable name matching the identifier lexeme `[A-Za-z][A-Za-z0-9]*`. -/
def wellFormedName (s : String) : Bool :=
  match s.data with
  | [] => false
  | c :: rest => isAlphaChar c && rest.all isAlnumChar

/-- A formula is well formed when every variable name matches the
identifier lexeme. -/
def wellFormedFormula : Formula → Bool
  | .var n => wellFormedName n
  | .bottom => true
  | .not g => wellFormedFormula g
  | .and l r => wellFormedFormula l && wellFormedFormula r
  | .or l r => wellFormedFormula l && wellFormedFormula r
  | .implies l r => wellFormedFormula l && wellFormedFormula r
  | .iff l r => wellFormedFormula l && wellFormedFormula r

/-- Modelled from the spec: the classical truth value of a formula over
a total assignment (section 4.4 of the specification: `Bottom` is
false, `Not` negates, `And`/`Or` are conjunction and disjunction,
`Implies(a,b) = not a or b`, `Iff(a,b) = (a == b)`).  An unassigned
variable defaults to false; the claims compare `evaluate` against this
reference only when every variable is assigned. -/
def classicalEval : Formula → List (String × Bool) → Bool
  | .var n, a => ((a.lookup n).getD false)
  | .bottom, _ => false
  | .not g, a => !(classicalEval g a)
  | .and l r, a => classicalEval l a && classicalEval r a
  | .or l r, a => classicalEval l a || classicalEval r a
  | .implies l r, a => !(classicalEval l a) || classicalEval r a
  | .iff l r, a => classicalEval l a == classicalEval r a

/-- Whether the top constructor is `implies` (the shape test
`conditional.kind !== 'implies'` of the source). -/
def isImpliesKind : Formula → Bool
  | .implies _ _ => true
  | _ => false

/-- The UTF-8 byte width of one Unicode scalar value. -/
def utf8Width (c : Char) : Nat :=
  if c.val < 0x80 then 1
  else if c.val < 0x800 then 2
  else if c.val < 0x10000 then 3
  else 4

/-- The UTF-8 byte length of a character list. -/
def utf8ByteLength (cs : List Char) : Nat :=
  (cs.map utf8Width).sum

/-- A two-line validation context holding justification formulas `j1`
and `j2` under the ids `"j1"` and `"j2"`, used to state the
`implies_elim` schema in isolation. -/
def twoLineContext (j1 j2 : Formula) : ValidationContext :=
  ⟨[⟨⟨"j1", j1, .assumption, [], 0, none⟩, 0, true, false, false, none⟩,
    ⟨⟨"j2", j2, .assumption, [], 0, none⟩, 1, true, false, false, none⟩], 2, 0, []⟩

/-- An `implies_elim` step targeting `e` and citing `"j1"` then `"j2"`. -/
def impElimStep (e : Formula) : ProofStep :=
  ⟨"c", e, .implies_elim, ["j1", "j2"], 0, none⟩

/-- A formula with thirty-one distinct variables (a left-nested
disjunction chain). -/
def thirtyOneVarFormula : Formula :=
  [ "B", "C", "D", "E", "F", "G", "H", "I", "J", "K", "L", "M", "N",
    "O", "P2", "Q2", "R2", "S", "T", "U", "V", "W", "X", "Y", "Z",
    "a", "b", "c", "d", "e" ].foldl (fun acc n => .or acc (.var n)) (.var "A")

/-! # Theorems -/

/-! ## C1: checker soundness -/

/-- The amended positional invariant for lexer tokens: relative to a
start offset `pos`, every emitted token's value is exactly the slice
of the input at its recorded position (character offsets), and an EOF
token's position is the offset of the end of the input. -/
def tokenSpanInv (cs : List Char) (pos : Nat) (t : Token) : Prop :=
  pos ≤ t.position ∧
  t.position + t.value.length ≤ pos + cs.length ∧
  (cs.drop (t.position - pos)).take t.value.length = t.value ∧
  (t.type = TokType.EOF → t.position = pos + cs.length)

/-! ## Round-trip infrastructure (`printer.ts` against `parser.ts`)

The token-level image of the printer, spine decompositions of the
formula grammar levels, and the per-level parser-correctness
statements used by the round-trip proof. -/

/-- A token without its position; the parser's success value depends
only on this projection. -/
def stripTok (t : Token) : TokType × List Char :=
  (t.type, t.value)

/-- True when a character list does not start with an identifier
character, so that lexing a name directly followed by this list cannot
extend the name. -/
def glueOk : List Char → Bool
  | [] => true
  | c :: _ => !isAlnumChar c

/-- The AND token value: `andSym` without its surrounding spaces. -/
def andVal : DisplayMode → List Char
  | .ascii => ['/', '\\']
  | .utf8 => ['∧']

/-- The OR token value. -/
def orVal : DisplayMode → List Char
  | .ascii => ['\\', '/']
  | .utf8 => ['∨']

/-- The IMPLIES token value. -/
def impliesVal : DisplayMode → List Char
  | .ascii => ['-', '>']
  | .utf8 => ['→']

/-- The IFF token value. -/
def iffVal : DisplayMode → List Char
  | .ascii => ['<', '-', '>']
  | .utf8 => ['↔']

/-- The sequence of (type, value) pairs of the tokens produced by
lexing `printChars f m p`: one token per atom or operator occurrence,
with a parenthesis pair exactly when the printer wraps. -/
def emitTV (f : Formula) (m : DisplayMode) (p : Nat) : List (TokType × List Char) :=
  let inner : List (TokType × List Char) :=
    match f with
    | .var name => [(TokType.VAR, name.data)]
    | .bottom => [(TokType.BOTTOM, bottomSym m)]
    | .not x => (TokType.NOT, notSym m) :: emitTV x m 50
    | .and l r => emitTV l m 40 ++ (TokType.AND, andVal m) :: emitTV r m 41
    | .or l r => emitTV l m 30 ++ (TokType.OR, orVal m) :: emitTV r m 31
    | .implies l r => emitTV l m 21 ++ (TokType.IMPLIES, impliesVal m) :: emitTV r m 20
    | .iff l r => emitTV l m 10 ++ (TokType.IFF, iffVal m) :: emitTV r m 11
  if precedenceOf f < p then
    (TokType.LPAREN, ['(']) :: inner ++ [(TokType.RPAREN, [')'])]
  else inner

/-- Leftmost non-`and` formula of a left-nested conjunction. -/
def andHead : Formula → Formula
  | .and a _ => andHead a
  | f => f

/-- Right operands along the left spine of a conjunction. -/
def andItems : Formula → List Formula
  | .and a b => andItems a ++ [b]
  | _ => []

/-- Leftmost non-`or` formula of a left-nested disjunction. -/
def orHead : Formula → Formula
  | .or a _ => orHead a
  | f => f

/-- Right operands along the left spine of a disjunction. -/
def orItems : Formula → List Formula
  | .or a b => orItems a ++ [b]
  | _ => []

/-- Leftmost non-`iff` formula of a left-nested biconditional. -/
def iffHead : Formula → Formula
  | .iff a _ => iffHead a
  | f => f

/-- Right operands along the left spine of a biconditional. -/
def iffItems : Formula → List Formula
  | .iff a b => iffItems a ++ [b]
  | _ => []

/-- Antecedents along the right spine of a conditional. -/
def impOps : Formula → List Formula
  | .implies a b => a :: impOps b
  | _ => []

/-- Final non-`implies` consequent of a right-nested conditional. -/
def impLast : Formula → Formula
  | .implies _ b => impLast b
  | f => f

/-- The head token type of a remaining stream avoids every type in
`bad`, so the binary-operator loops at the corresponding levels stop
there. -/
def stopsAt (bad : List TokType) (rest : List Token) : Prop :=
  ∀ t ∈ rest.head?, t.type ∉ bad

/-- `parsePrimary` correctly consumes the printed image of `f`. -/
def PrimOK (m : DisplayMode) (f : Formula) : Prop :=
  ∀ p ts rest, (precedenceOf f < p ∨ precedenceOf f = 60) →
    ts.map stripTok = emitTV f m p →
    ∃ res, parsePrimary (ts ++ rest) = .ok res ∧ res.1 = f ∧ res.2.val = rest

/-- `parseUnary` correctly consumes the printed image of `f`. -/
def UnaryOK (m : DisplayMode) (f : Formula) : Prop :=
  ∀ p ts rest, (precedenceOf f < p ∨ 50 ≤ precedenceOf f) →
    ts.map stripTok = emitTV f m p →
    ∃ res, parseUnary (ts ++ rest) = .ok res ∧ res.1 = f ∧ res.2.val = rest

/-- `parseAnd` correctly consumes the printed image of `f` when the
following stream does not begin with AND. -/
def AndOK (m : DisplayMode) (f : Formula) : Prop :=
  ∀ p ts rest, (precedenceOf f < p ∨ 40 ≤ precedenceOf f) →
    ts.map stripTok = emitTV f m p → stopsAt [TokType.AND] rest →
    ∃ res, parseAnd (ts ++ rest) = .ok res ∧ res.1 = f ∧ res.2.val = rest

/-- `parseOr` correctly consumes the printed image of `f` when the
following stream does not begin with OR or AND. -/
def OrOK (m : DisplayMode) (f : Formula) : Prop :=
  ∀ p ts rest, (precedenceOf f < p ∨ 30 ≤ precedenceOf f) →
    ts.map stripTok = emitTV f m p → stopsAt [TokType.OR, TokType.AND] rest →
    ∃ res, parseOr (ts ++ rest) = .ok res ∧ res.1 = f ∧ res.2.val = rest

/-- `parseImplies` correctly consumes the printed image of `f` when the
following stream does not begin with a binary operator below IFF. -/
def ImpOK (m : DisplayMode) (f : Formula) : Prop :=
  ∀ p ts rest, (precedenceOf f < p ∨ 20 ≤ precedenceOf f) →
    ts.map stripTok = emitTV f m p →
    stopsAt [TokType.IMPLIES, TokType.OR, TokType.AND] rest →
    ∃ res, parseImplies (ts ++ rest) = .ok res ∧ res.1 = f ∧ res.2.val = rest

/-- `parseIff` correctly consumes the printed image of `f` when the
following stream does not begin with any binary operator. -/
def IffOK (m : DisplayMode) (f : Formula) : Prop :=
  ∀ p ts rest, (precedenceOf f < p ∨ 10 ≤ precedenceOf f) →
    ts.map stripTok = emitTV f m p →
    stopsAt [TokType.IFF, TokType.IMPLIES, TokType.OR, TokType.AND] rest →
    ∃ res, parseIff (ts ++ rest) = .ok res ∧ res.1 = f ∧ res.2.val = rest

/-- C1.  The claimed soundness law fails on the code: the one-step
proof whose only step assumes `P` at depth 0 (with no premises) is
reported valid and complete, yet `entails([], P)` is false.  The
checker's `assumption` arm performs no validation at all, so a depth-0
assumption that is not a premise silently enters the proof. -/
theorem C1_checker_accepts_nonentailed_conclusion :
    checkProof [⟨"1", .var "P", .assumption, [], 0, none⟩] [] (.var "P") [] =
      some ⟨true, true, []⟩ ∧
    entails [] (.var "P") = some false := by
  constructor
  · decide
  · decide

/-! ## C2: accessibility of cited steps -/

/-- C2.  The claimed accessibility discipline fails on the code.  In
the proof `[P assumption at depth 1; P or Q by or_intro_l citing step
0 at depth 0]` the final step cites a line inside the already-closed
depth-1 subproof, so the claim requires `INACCESSIBLE_JUSTIFICATION`;
the checker instead reports the proof valid and complete with no
errors, because `getSubproofAncestors` only collects subproof openings
at strictly smaller depth than the cited line and therefore never sees
the subproof the line itself belongs to. -/
theorem C2_closed_subproof_citation_not_flagged :
    checkProof
      [⟨"s1", .var "P", .assumption, [], 1, none⟩,
       ⟨"s2", .or (.var "P") (.var "Q"), .or_intro_l, ["s1"], 0, none⟩]
      [] (.or (.var "P") (.var "Q")) [] = some ⟨true, true, []⟩ := by
  decide

/-! ## C4: at most one error per step -/

/-- C4, counterexample.  A single `and_intro` step citing two
unresolvable justification ids contributes two
`JUSTIFICATION_NOT_FOUND` errors to the aggregated list, so the
claimed at-most-one-error-per-step bound is false: the
reference-resolution check emits one error per bad reference before
short-circuiting the remaining checks. -/
theorem C4_two_errors_from_one_step :
    checkProof
      [⟨"s2", .and (.var "P") (.var "Q"), .and_intro, ["s1", "nonexistent"], 0, none⟩]
      [] (.and (.var "P") (.var "Q")) [] =
    some ⟨false, true,
      [⟨"s2", "Justification s1 not found", .JUSTIFICATION_NOT_FOUND⟩,
       ⟨"s2", "Justification nonexistent not found", .JUSTIFICATION_NOT_FOUND⟩]⟩ := by
  decide

/-! ## C10: assumption steps pass validation -/

/-- C10, counterexample.  An `assumption` step is not always accepted:
when its justification list is nonempty the arity check fires, so this
depth-0 assumption of `P` is rejected by the checker with
`TOO_MANY_JUSTIFICATIONS` rather than accepted with no errors. -/
theorem C10_assumption_with_justification_rejected :
    checkProof [⟨"a", .var "P", .assumption, ["a"], 0, none⟩] [] (.var "P") [] =
    some ⟨false, true,
      [⟨"a", "assumption requires at most 0 justifications, got 1",
        .TOO_MANY_JUSTIFICATIONS⟩]⟩ := by
  decide

/-! ## Shared lemmas about structural equality -/

theorem formulaEquals_eq_true_iff (a b : Formula) : formulaEquals a b = true ↔ a = b := by
  induction a generalizing b with
  | var n => cases b <;> simp [formulaEquals]
  | bottom => cases b <;> simp [formulaEquals]
  | not x ih => cases b <;> simp [formulaEquals, ih]
  | and l r ihl ihr => cases b <;> simp [formulaEquals, ihl, ihr]
  | or l r ihl ihr => cases b <;> simp [formulaEquals, ihl, ihr]
  | implies l r ihl ihr => cases b <;> simp [formulaEquals, ihl, ihr]
  | iff l r ihl ihr => cases b <;> simp [formulaEquals, ihl, ihr]

theorem formulaEquals_refl (f : Formula) : formulaEquals f f = true :=
  (formulaEquals_eq_true_iff f f).mpr rfl

/-- C10, amended.  An `assumption` step with an empty justification
list passes per-step validation with no errors, at any depth, for any
formula and in any context; in particular a one-step proof assuming
any formula at depth 0 — premise or not — is reported valid, and
complete whenever the formula is the requested conclusion. -/
theorem C10_assumption_no_justification_accepted :
    (∀ (step : ProofStep) (context : ValidationContext),
      step.rule = .assumption → step.justification = [] →
      validateStep step context = some []) ∧
    (∀ f : Formula,
      checkProof [⟨"1", f, .assumption, [], 0, none⟩] [] f [] = some ⟨true, true, []⟩) := by
  have hstep : ∀ (step : ProofStep) (context : ValidationContext),
      step.rule = .assumption → step.justification = [] →
      validateStep step context = some [] := by
    intro step context hrule hjust
    simp [validateStep, hrule, hjust, getRequiredJustificationCount, validateRuleApplication,
      justificationRefErrors]
  refine ⟨hstep, ?_⟩
  intro f
  simp [checkProof, buildProofLineInfo, buildLoop, closeScopes, closeAll, markSubproofEnds,
    stepErrors, isLineAccessible, isPremise, hstep, formulaEquals_refl, opensSubproof,
    List.mapM, List.mapM.loop, List.enum, List.enumFrom]

/-- C10 witness: the amended statement applied at a concrete
assumption step (formula `Q`, depth 3, empty context) and at the
concrete formula `P`. -/
theorem C10_assumption_no_justification_accepted_witness :
    validateStep ⟨"w", .var "Q", .assumption, [], 3, none⟩ ⟨[], 0, 3, []⟩ = some [] ∧
    checkProof [⟨"1", .var "P", .assumption, [], 0, none⟩] [] (.var "P") [] =
      some ⟨true, true, []⟩ :=
  ⟨C10_assumption_no_justification_accepted.1 _ _ rfl rfl,
   C10_assumption_no_justification_accepted.2 (.var "P")⟩

/-! ## C5: implies_elim accepts both orderings -/

/-- C5, counterexample.  With target `R`, first justification
`A -> B` and second justification `(A -> B) -> R`, the swapped pairing
of the claim holds (the second justification is `Implies(X, R)` with
`X` the first justification), so the claim requires the rule check to
succeed; the checker rejects it, because the swapped ordering is only
tried when the first justification is not itself an implication. -/
theorem C5_swapped_pairing_rejected_when_both_implications :
    (∃ X : Formula,
      Formula.implies (.implies (.var "A") (.var "B")) (.var "R") =
        .implies X (.var "R") ∧
      Formula.implies (.var "A") (.var "B") = X) ∧
    validateRuleApplication (impElimStep (.var "R"))
      (twoLineContext (.implies (.var "A") (.var "B"))
        (.implies (.implies (.var "A") (.var "B")) (.var "R"))) ≠ some [] :=
  ⟨⟨.implies (.var "A") (.var "B"), rfl, rfl⟩, by decide⟩

/-- C5, amended.  For an `implies_elim` step with target `e` whose two
justifications resolve to `j1` and `j2`, rule validation succeeds
exactly when `j1 = Implies(j2, e)`, or `j1` is not an implication and
`j2 = Implies(j1, e)`: the swapped ordering is accepted only when the
first justification is not itself an implication. -/
theorem formulaEquals_eq_decide (a b : Formula) : formulaEquals a b = decide (a = b) := by
  cases hfe : formulaEquals a b
  · have : ¬ a = b := by
      intro hab
      rw [hab, formulaEquals_refl] at hfe
      simp at hfe
    simp [this]
  · have : a = b := (formulaEquals_eq_true_iff a b).mp hfe
    simp [this]

theorem C5_implies_elim_schema (j1 j2 e : Formula) :
    validateRuleApplication (impElimStep e) (twoLineContext j1 j2) = some [] ↔
    (j1 = .implies j2 e ∨ (isImpliesKind j1 = false ∧ j2 = .implies j1 e)) := by
  cases j1 <;> cases j2 <;>
    (simp [validateRuleApplication, impElimStep, twoLineContext, getJustFormula,
      List.find?, isImpliesKind, formulaEquals_eq_decide]
     try (split_ifs <;> simp_all))

/-! ## C8: evaluation semantics and failure condition -/

/-- C8, counterexample.  `Q` occurs in `P and Q` and is missing from
the assignment `{P: false}`, so the claim requires an error; the
evaluator instead short-circuits on the false left conjunct and
returns `false` without raising. -/
theorem C8_missing_variable_not_raised :
    evaluate (.and (.var "P") (.var "Q")) [("P", false)] = some false ∧
    "Q" ∈ collectVars (.and (.var "P") (.var "Q")) ∧
    (([("P", false)] : List (String × Bool)).lookup "Q") = none := by
  refine ⟨by decide, by decide, by decide⟩

theorem evaluate_none_has_missing_var (f : Formula) (a : List (String × Bool))
    (h : evaluate f a = none) : ∃ v, v ∈ collectVars f ∧ a.lookup v = none := by
  induction f generalizing a with
    | var n =>
      simp only [evaluate] at h
      cases hl : a.lookup n with
      | none => exact ⟨n, by simp [collectVars], hl⟩
      | some v => rw [hl] at h; simp at h
    | bottom => simp [evaluate] at h
    | not g ih =>
      simp only [evaluate] at h
      split at h
      next heq => exact (ih a heq).imp (fun v hv => ⟨by simpa [collectVars] using hv.1, hv.2⟩)
      next heq => simp at h
    | and l r ihl ihr =>
      simp only [evaluate] at h
      split at h
      next heq => exact (ihl a heq).imp (fun v hv => ⟨by simp [collectVars, hv.1], hv.2⟩)
      next heq => simp at h
      next heq => exact (ihr a h).imp (fun v hv => ⟨by simp [collectVars, hv.1], hv.2⟩)
    | or l r ihl ihr =>
      simp only [evaluate] at h
      split at h
      next heq => exact (ihl a heq).imp (fun v hv => ⟨by simp [collectVars, hv.1], hv.2⟩)
      next heq => simp at h
      next heq => exact (ihr a h).imp (fun v hv => ⟨by simp [collectVars, hv.1], hv.2⟩)
    | implies l r ihl ihr =>
      simp only [evaluate] at h
      split at h
      next heq => exact (ihl a heq).imp (fun v hv => ⟨by simp [collectVars, hv.1], hv.2⟩)
      next heq => simp at h
      next heq => exact (ihr a h).imp (fun v hv => ⟨by simp [collectVars, hv.1], hv.2⟩)
    | iff l r ihl ihr =>
      simp only [evaluate] at h
      split at h
      next heq => exact (ihl a heq).imp (fun v hv => ⟨by simp [collectVars, hv.1], hv.2⟩)
      next heq =>
        split at h
        next heq2 => exact (ihr a heq2).imp (fun v hv => ⟨by simp [collectVars, hv.1], hv.2⟩)
        next heq2 => simp at h

theorem evaluate_eq_classicalEval_of_covered (f : Formula) (a : List (String × Bool))
    (h : ∀ v, v ∈ collectVars f → (a.lookup v).isSome) :
    evaluate f a = some (classicalEval f a) := by
  induction f generalizing a with
    | var n =>
      have hn := h n (by simp [collectVars])
      cases hl : a.lookup n with
      | none => rw [hl] at hn; simp at hn
      | some v => simp [evaluate, classicalEval, hl]
    | bottom => simp [evaluate, classicalEval]
    | not g ih =>
      have hg := ih a (fun v hv => h v (by simp [collectVars, hv]))
      simp [evaluate, classicalEval, hg]
    | and l r ihl ihr =>
      have h1 := ihl a (fun v hv => h v (by simp [collectVars, hv]))
      have h2 := ihr a (fun v hv => h v (by simp [collectVars, hv]))
      simp only [evaluate, classicalEval, h1, h2]
      cases classicalEval l a <;> simp [h2]
    | or l r ihl ihr =>
      have h1 := ihl a (fun v hv => h v (by simp [collectVars, hv]))
      have h2 := ihr a (fun v hv => h v (by simp [collectVars, hv]))
      simp only [evaluate, classicalEval, h1, h2]
      cases classicalEval l a <;> simp [h2]
    | implies l r ihl ihr =>
      have h1 := ihl a (fun v hv => h v (by simp [collectVars, hv]))
      have h2 := ihr a (fun v hv => h v (by simp [collectVars, hv]))
      simp only [evaluate, classicalEval, h1, h2]
      cases classicalEval l a <;> simp [h2]
    | iff l r ihl ihr =>
      have h1 := ihl a (fun v hv => h v (by simp [collectVars, hv]))
      have h2 := ihr a (fun v hv => h v (by simp [collectVars, hv]))
      simp [evaluate, classicalEval, h1, h2]

/-- C8, amended.  A missing variable is the evaluator's only failure
mode — whenever evaluation raises, some variable of the formula is
unassigned — and on assignments covering every variable of the formula
it returns the classical value (`Bottom` false, `Not` negation,
`And`/`Or` classical, `Implies(a,b) = not a or b`, `Iff` equality of
values).  However, because `And`, `Or` and `Implies` short-circuit, a
missing variable in an unevaluated operand does not raise. -/
theorem C8_evaluate_semantics :
    (∀ (f : Formula) (a : List (String × Bool)), evaluate f a = none →
      ∃ v, v ∈ collectVars f ∧ a.lookup v = none) ∧
    (∀ (f : Formula) (a : List (String × Bool)),
      (∀ v, v ∈ collectVars f → (a.lookup v).isSome) →
      evaluate f a = some (classicalEval f a)) :=
  ⟨fun f a => evaluate_none_has_missing_var f a,
   fun f a => evaluate_eq_classicalEval_of_covered f a⟩

/-- C8 witness: the amended statement's totality half applied at the
concrete formula `P and Q` under the assignment `{P: true, Q: false}`,
with the coverage hypothesis discharged by computation. -/
theorem C8_evaluate_semantics_witness :
    (∀ v, v ∈ collectVars (.and (.var "P") (.var "Q")) →
      (([("P", true), ("Q", false)] : List (String × Bool)).lookup v).isSome) ∧
    evaluate (.and (.var "P") (.var "Q")) [("P", true), ("Q", false)] =
      some (classicalEval (.and (.var "P") (.var "Q")) [("P", true), ("Q", false)]) :=
  ⟨by decide, C8_evaluate_semantics.2 _ _ (by decide)⟩

/-! ## C4 amended: the per-step error bound -/

set_option maxHeartbeats 1000000 in
theorem validateRuleApplication_length_le_one (step : ProofStep) (context : ValidationContext)
    (es : List ValidationError) (h : validateRuleApplication step context = some es) :
    es.length ≤ 1 := by
  cases hr : step.rule <;>
    rw [validateRuleApplication, hr] at h <;>
    (repeat'
      first
        | exact Option.noConfusion h
        | (injection h with h3; subst h3; simp)
        | split at h
        | simp_all)

theorem validateStep_length_le (step : ProofStep) (context : ValidationContext)
    (es : List ValidationError) (h : validateStep step context = some es) :
    es.length ≤ 1 ∨ es.length ≤ step.justification.length := by
  simp only [validateStep] at h
  split_ifs at h with h1 h2 h3
  · left
    simp only [Option.some.injEq] at h
    subst h
    simp
  · left
    simp only [Option.some.injEq] at h
    subst h
    simp
  · exact Or.inl (validateRuleApplication_length_le_one step context es h)
  · right
    simp only [Option.some.injEq] at h
    subst h
    simpa [justificationRefErrors] using
      List.length_filterMap_le _ step.justification

/-- C4, amended (per-step bound).  A step contributes the errors of
its first failing check only: one error when the arity check fails,
one error per unresolvable or inaccessible justification when
reference resolution fails, and at most one error from the rule
schema; the premise shortcut and the theorem check contribute at most
one.  Hence a step's contribution to the aggregated list is bounded by
the larger of one and its justification count — not by one, as
claimed. -/
theorem C4_step_error_bound (premises : List Formula)
    (theoremLibrary : List ProvenTheorem) (lines : List ProofLineInfo) (i : Nat)
    (step : ProofStep) (es : List ValidationError)
    (h : stepErrors premises theoremLibrary lines i step = some es) :
    es.length ≤ max 1 step.justification.length := by
  have hfin : es.length ≤ 1 ∨ es.length ≤ step.justification.length →
      es.length ≤ max 1 step.justification.length := by
    intro hd
    rcases hd with hd | hd
    · exact le_trans hd (Nat.le_max_left 1 _)
    · exact le_trans hd (Nat.le_max_right 1 _)
  simp only [stepErrors] at h
  split_ifs at h with h1 h2
  · apply hfin
    left
    simp only [Option.some.injEq] at h
    subst h
    simp
  · split at h
    · apply hfin
      left
      simp only [Option.some.injEq] at h
      subst h
      simp
    · split_ifs at h
      all_goals
        apply hfin
        left
        simp only [Option.some.injEq] at h
        subst h
        simp
  · exact hfin (validateStep_length_le step _ es h)

/-- C4 witness: the bound applied to the concrete step that cites two
unresolvable justifications, whose contribution is two errors. -/
theorem C4_step_error_bound_witness :
    stepErrors [] []
      (buildProofLineInfo
        [⟨"s2", .and (.var "P") (.var "Q"), .and_intro, ["s1", "x"], 0, none⟩]) 0
      ⟨"s2", .and (.var "P") (.var "Q"), .and_intro, ["s1", "x"], 0, none⟩ =
      some [⟨"s2", "Justification s1 not found", .JUSTIFICATION_NOT_FOUND⟩,
            ⟨"s2", "Justification x not found", .JUSTIFICATION_NOT_FOUND⟩] ∧
    ([(⟨"s2", "Justification s1 not found", .JUSTIFICATION_NOT_FOUND⟩ : ValidationError),
      ⟨"s2", "Justification x not found", .JUSTIFICATION_NOT_FOUND⟩] : List ValidationError).length ≤
      max 1 (["s1", "x"] : List String).length :=
  ⟨by decide,
   C4_step_error_bound [] []
     (buildProofLineInfo
       [⟨"s2", .and (.var "P") (.var "Q"), .and_intro, ["s1", "x"], 0, none⟩]) 0
     ⟨"s2", .and (.var "P") (.var "Q"), .and_intro, ["s1", "x"], 0, none⟩
     [⟨"s2", "Justification s1 not found", .JUSTIFICATION_NOT_FOUND⟩,
      ⟨"s2", "Justification x not found", .JUSTIFICATION_NOT_FOUND⟩]
     (by decide)⟩

/-! ## C7: entailment agrees with counterexample search -/

/-- C7.  For every premise list and conclusion, `entails` returns true
exactly when `findCounterexample` finds nothing: both walk the same
assignment list, the one returning false exactly where the other
returns its first witness, and both propagating the same (unreachable)
evaluation failure. -/
theorem C7_entails_iff_no_counterexample (premises : List Formula) (conclusion : Formula) :
    entails premises conclusion = some true ↔
    findCounterexample premises conclusion = some none := by
  unfold entails findCounterexample
  generalize generateAllAssignments (allVarsOf premises conclusion) = as
  induction as with
  | nil => simp [entailsLoop, findCounterexampleLoop]
  | cons a rest ih =>
    simp only [entailsLoop, findCounterexampleLoop]
    cases hp : premisesAllTrue premises a with
    | none => simp
    | some pt =>
      cases pt
      · simpa using ih
      · cases hc : evaluate conclusion a with
        | none => simp
        | some cv =>
          cases cv
          · simp
          · simpa using ih

/-! ## C6: truth-table shape and enumeration order -/

theorem bmod_two_pow_32_small (x : Int) (h0 : 0 ≤ x) (h1 : x < 2 ^ 31) :
    Int.bmod x (2 ^ 32) = x := by
  have hx : x % ((2 ^ 32 : Nat) : Int) = x := by
    apply Int.emod_eq_of_lt h0
    push_cast
    omega
  rw [Int.bmod_def, hx, if_pos]
  push_cast
  omega

theorem jsShlOne_eq_pow (k : Nat) (h : k ≤ 30) : jsShlOne k = ((2 ^ k : Nat) : Int) := by
  unfold jsShlOne jsToInt32
  rw [Nat.mod_eq_of_lt (by omega)]
  have hcast : (2 : Int) ^ k = ((2 ^ k : Nat) : Int) := by push_cast; ring
  rw [hcast]
  have hle : (2 : Nat) ^ k ≤ 2 ^ 30 := Nat.pow_le_pow_right (by norm_num) h
  have h0 : (0 : Int) ≤ ((2 ^ k : Nat) : Int) := by positivity
  have hlt : ((2 ^ k : Nat) : Int) < 2 ^ 31 := by omega
  exact bmod_two_pow_32_small _ h0 hlt

theorem jsAnd_of_small (a b : Nat) (ha : a < 2 ^ 31) (hb : b < 2 ^ 31) :
    jsAnd (a : Int) (b : Int) = ((Nat.land a b : Nat) : Int) := by
  unfold jsAnd jsToInt32
  have h1 : ((a : Int)) % 2 ^ 32 = (a : Int) := Int.emod_eq_of_lt (by omega) (by omega)
  have h2 : ((b : Int)) % 2 ^ 32 = (b : Int) := Int.emod_eq_of_lt (by omega) (by omega)
  rw [h1, h2, Int.toNat_natCast, Int.toNat_natCast, Int.ofNat_eq_natCast]
  have hle : Nat.land a b ≤ b := Nat.and_le_right
  have h0 : (0 : Int) ≤ ((Nat.land a b : Nat) : Int) := by positivity
  have hlt : ((Nat.land a b : Nat) : Int) < 2 ^ 31 := by omega
  exact bmod_two_pow_32_small _ h0 hlt

theorem natCast_land_pow_eq_zero (i k : Nat) :
    (((Nat.land i (2 ^ k) : Nat) : Int) == 0) = !(i.testBit k) := by
  rw [show Nat.land i (2 ^ k) = i &&& 2 ^ k from rfl, Nat.and_two_pow i k]
  cases htb : i.testBit k with
  | false => norm_num
  | true =>
    have hne : (2 : Nat) ^ k ≠ 0 := by positivity
    simp only [Bool.toNat_true, one_mul, Bool.not_true]
    rw [beq_eq_false_iff_ne]
    exact_mod_cast hne

theorem jsAnd_bit (i k : Nat) (hi : i < 2 ^ 31) (hk : k ≤ 30) :
    (jsAnd (Int.ofNat i) (jsShlOne k) == 0) = !(i.testBit k) := by
  have hb : (2 : Nat) ^ k < 2 ^ 31 := by
    have := Nat.pow_le_pow_right (show 1 ≤ 2 by norm_num) hk
    omega
  rw [Int.ofNat_eq_natCast, jsShlOne_eq_pow k hk, jsAnd_of_small i (2 ^ k) hi hb]
  exact natCast_land_pow_eq_zero i k

theorem generateAllAssignments_eq (vars : List String) (h : vars.length ≤ 30) :
    generateAllAssignments vars =
      (List.range (2 ^ vars.length)).map (fun i =>
        vars.enum.map (fun jv => (jv.2, !(i.testBit (vars.length - 1 - jv.1))))) := by
  have hpowle : (2 : Nat) ^ vars.length ≤ 2 ^ 30 := Nat.pow_le_pow_right (by norm_num) h
  simp only [generateAllAssignments]
  rw [jsShlOne_eq_pow _ h, Int.toNat_natCast]
  apply List.map_congr_left
  intro i hi
  rw [List.mem_range] at hi
  apply List.map_congr_left
  intro jv _
  rw [jsAnd_bit i (vars.length - 1 - jv.1) (by omega) (by omega)]

theorem mapM_option_eq_map {α β : Type} (g : α → Option β) (g2 : α → β) (l : List α)
    (h : ∀ a ∈ l, g a = some (g2 a)) : l.mapM g = some (l.map g2) := by
  induction l with
  | nil => rfl
  | cons a rest ih =>
    rw [List.mapM_cons, h a (by simp), ih (fun x hx => h x (by simp [hx]))]
    rfl

theorem lookup_isSome_of_mem_keys (ps : List (String × Bool)) (v : String)
    (h : v ∈ ps.map Prod.fst) : (ps.lookup v).isSome := by
  induction ps with
  | nil => simp at h
  | cons p rest ih =>
    simp only [List.map_cons, List.mem_cons] at h
    by_cases hv : v == p.1
    · simp [List.lookup, hv]
    · rcases h with h | h
      · exact absurd (by simp [h]) hv
      · simp only [List.lookup, hv]
        exact ih h

theorem mem_extractVariables (f : Formula) (v : String) (h : v ∈ collectVars f) :
    v ∈ extractVariables f := by
  unfold extractVariables sortStrings
  rw [List.Perm.mem_iff (List.perm_insertionSort _ _), List.mem_dedup]
  exact h

theorem uint32_lt_iff_toNat_lt (a b : UInt32) : a < b ↔ a.toNat < b.toNat :=
  Iff.rfl

theorem charListLe_total (as bs : List Char) :
    charListLe as bs = true ∨ charListLe bs as = true := by
  induction as generalizing bs with
  | nil => left; rfl
  | cons a as ih =>
    cases bs with
    | nil => right; rfl
    | cons b bs =>
      simp only [charListLe]
      rcases Nat.lt_trichotomy a.val.toNat b.val.toNat with h | h | h
      · left
        rw [if_pos ((uint32_lt_iff_toNat_lt _ _).mpr h)]
      · have hab : ¬ a.val < b.val := by rw [uint32_lt_iff_toNat_lt]; omega
        have hba : ¬ b.val < a.val := by rw [uint32_lt_iff_toNat_lt]; omega
        rw [if_neg hab, if_neg hba, if_neg hba, if_neg hab]
        exact ih bs
      · right
        rw [if_pos ((uint32_lt_iff_toNat_lt _ _).mpr h)]

theorem charListLe_trans (as bs cs : List Char) (h1 : charListLe as bs = true)
    (h2 : charListLe bs cs = true) : charListLe as cs = true := by
  induction as generalizing bs cs with
  | nil => rfl
  | cons a as ih =>
    cases bs with
    | nil => exact absurd h1 (by simp [charListLe])
    | cons b bs =>
      cases cs with
      | nil => exact absurd h2 (by simp [charListLe])
      | cons c cs =>
        simp only [charListLe, uint32_lt_iff_toNat_lt] at h1 h2 ⊢
        by_cases hab : a.val.toNat < b.val.toNat
        · by_cases hbc : b.val.toNat < c.val.toNat
          · rw [if_pos (by omega)]
          · by_cases hcb : c.val.toNat < b.val.toNat
            · rw [if_neg hbc, if_pos hcb] at h2
              exact absurd h2 (by simp)
            · rw [if_pos (by omega)]
        · by_cases hba : b.val.toNat < a.val.toNat
          · rw [if_neg hab, if_pos hba] at h1
            exact absurd h1 (by simp)
          · rw [if_neg hab, if_neg hba] at h1
            by_cases hbc : b.val.toNat < c.val.toNat
            · rw [if_pos (by omega)]
            · by_cases hcb : c.val.toNat < b.val.toNat
              · rw [if_neg hbc, if_pos hcb] at h2
                exact absurd h2 (by simp)
              · rw [if_neg (show ¬ a.val.toNat < c.val.toNat by omega),
                    if_neg (show ¬ c.val.toNat < a.val.toNat by omega)]
                rw [if_neg hbc, if_neg hcb] at h2
                exact ih bs cs h1 h2

theorem jsStringLe_total (a b : String) :
    jsStringLe a b = true ∨ jsStringLe b a = true :=
  charListLe_total a.data b.data

theorem jsStringLe_trans (a b c : String) (h1 : jsStringLe a b = true)
    (h2 : jsStringLe b c = true) : jsStringLe a c = true :=
  charListLe_trans a.data b.data c.data h1 h2

theorem sorted_extractVariables (f : Formula) :
    List.Sorted (fun a b : String => jsStringLe a b = true) (extractVariables f) :=
  @List.sorted_insertionSort String (fun a b => jsStringLe a b = true) _
    ⟨jsStringLe_total⟩ ⟨fun a b c => jsStringLe_trans a b c⟩ _

theorem tautologyLoop_isSome (f : Formula) (as : List (List (String × Bool)))
    (h : ∀ a ∈ as, (evaluate f a).isSome) : (tautologyLoop f as).isSome := by
  induction as with
  | nil => simp [tautologyLoop]
  | cons a rest ih =>
    simp only [tautologyLoop]
    cases he : evaluate f a with
    | none =>
      have := h a (by simp)
      rw [he] at this
      simp at this
    | some b =>
      cases b
      · simp
      · exact ih (fun x hx => h x (by simp [hx]))

theorem contradictionLoop_isSome (f : Formula) (as : List (List (String × Bool)))
    (h : ∀ a ∈ as, (evaluate f a).isSome) : (contradictionLoop f as).isSome := by
  induction as with
  | nil => simp [contradictionLoop]
  | cons a rest ih =>
    simp only [contradictionLoop]
    cases he : evaluate f a with
    | none =>
      have := h a (by simp)
      rw [he] at this
      simp at this
    | some b =>
      cases b
      · exact ih (fun x hx => h x (by simp [hx]))
      · simp

theorem satisfiableLoop_isSome (f : Formula) (as : List (List (String × Bool)))
    (h : ∀ a ∈ as, (evaluate f a).isSome) : (satisfiableLoop f as).isSome := by
  induction as with
  | nil => simp [satisfiableLoop]
  | cons a rest ih =>
    simp only [satisfiableLoop]
    cases he : evaluate f a with
    | none =>
      have := h a (by simp)
      rw [he] at this
      simp at this
    | some b =>
      cases b
      · exact ih (fun x hx => h x (by simp [hx]))
      · simp

/-- C6, amended.  For every formula with at most 30 distinct variables
the claimed shape holds: the table generates, its variable list is the
sorted variable set, there are `2^n` rows, row `i` assigns the `j`-th
variable `true` exactly when bit `n-1-j` of `i` is zero, the first row
is all-true and the last all-false (and a formula with zero variables
yields exactly `2^0 = 1` row).  The bound is needed because the
source's loop bound `1 << n` is a JavaScript 32-bit shift. -/
theorem C6_truth_table_shape (f : Formula)
    (h : (extractVariables f).length ≤ 30) :
    ∃ tt, generateTruthTable f = some tt ∧
      tt.vars = extractVariables f ∧
      List.Sorted (fun a b : String => jsStringLe a b = true) tt.vars ∧
      tt.rows.length = 2 ^ tt.vars.length ∧
      (∀ i row, tt.rows.get? i = some row →
        row.inputs = tt.vars.enum.map
          (fun jv => (jv.2, !(i.testBit (tt.vars.length - 1 - jv.1))))) ∧
      (∀ row, tt.rows.head? = some row → ∀ pr ∈ row.inputs, pr.2 = true) ∧
      (∀ row, tt.rows.getLast? = some row → ∀ pr ∈ row.inputs, pr.2 = false) := by
  have hgen := generateAllAssignments_eq (extractVariables f) h
  set vars := extractVariables f with hvars
  set g : Nat → List (String × Bool) := fun i =>
    vars.enum.map (fun jv => (jv.2, !(i.testBit (vars.length - 1 - jv.1)))) with hgdef
  set rows0 : List TruthTableEntry := (List.range (2 ^ vars.length)).map
    (fun i => TruthTableEntry.mk (g i) (classicalEval f (g i))) with hrows0
  have hkeys : ∀ i, (g i).map Prod.fst = vars := by
    intro i
    rw [hgdef]
    simp only [List.map_map]
    have hcomp : (Prod.fst ∘ fun jv : Nat × String =>
        (jv.2, !(i.testBit (vars.length - 1 - jv.1)))) = Prod.snd := rfl
    rw [hcomp, List.enum_map_snd]
  have hcov : ∀ i, ∀ v ∈ collectVars f, ((g i).lookup v).isSome := by
    intro i v hv
    apply lookup_isSome_of_mem_keys
    rw [hkeys i]
    exact mem_extractVariables f v hv
  have heval : ∀ i, evaluate f (g i) = some (classicalEval f (g i)) := fun i =>
    evaluate_eq_classicalEval_of_covered f (g i) (fun v hv => hcov i v hv)
  have hevalsome : ∀ a ∈ generateAllAssignments vars, (evaluate f a).isSome := by
    intro a ha
    rw [hgen] at ha
    obtain ⟨i, _, rfl⟩ := List.mem_map.mp ha
    rw [heval i]
    rfl
  have hrows : (generateAllAssignments vars).mapM
      (fun a => (evaluate f a).map (fun r => TruthTableEntry.mk a r)) = some rows0 := by
    rw [hgen]
    rw [mapM_option_eq_map _ (fun a => TruthTableEntry.mk a (classicalEval f a)) _ ?hall]
    case hall =>
      intro a ha
      obtain ⟨i, _, rfl⟩ := List.mem_map.mp ha
      rw [heval i]
      rfl
    rw [List.map_map]
    rfl
  obtain ⟨tb, htb⟩ := Option.isSome_iff_exists.mp (tautologyLoop_isSome f _ hevalsome)
  obtain ⟨cb, hcb⟩ := Option.isSome_iff_exists.mp (contradictionLoop_isSome f _ hevalsome)
  obtain ⟨sb, hsb⟩ := Option.isSome_iff_exists.mp (satisfiableLoop_isSome f _ hevalsome)
  have hlen0 : rows0.length = 2 ^ vars.length := by
    rw [hrows0]
    simp
  have hget : ∀ i row, rows0.get? i = some row →
      row.inputs = vars.enum.map
        (fun jv => (jv.2, !(i.testBit (vars.length - 1 - jv.1)))) := by
    intro i row hrow
    rw [hrows0, List.get?_map] at hrow
    cases hri : (List.range (2 ^ vars.length)).get? i with
    | none => rw [hri] at hrow; simp at hrow
    | some i2 =>
      rw [hri] at hrow
      have hi2 : i2 = i := by
        have := List.get?_eq_some.mp hri
        obtain ⟨hlt, hv⟩ := this
        rw [List.get_range] at hv
        omega
      simp only [Option.map_some', Option.some.injEq] at hrow
      rw [← hrow, hi2]
  refine ⟨⟨f, vars, rows0, tb, cb, sb⟩, ?_, rfl, sorted_extractVariables f, hlen0, hget, ?_, ?_⟩
  · simp only [generateTruthTable, isTautology, isContradiction, isSatisfiable]
    rw [hrows, htb, hcb, hsb]
  · intro row hrow pr hpr
    have h0 : rows0.get? 0 = some row := by
      rw [List.get?_eq_getElem?, ← List.head?_eq_getElem?]
      exact hrow
    have := hget 0 row h0
    rw [this] at hpr
    obtain ⟨jv, _, rfl⟩ := List.mem_map.mp hpr
    simp [Nat.zero_testBit]
  · intro row hrow pr hpr
    have hne : rows0 ≠ [] := by
      intro hnil
      rw [hnil] at hlen0
      have : (0:Nat) < 2 ^ vars.length := Nat.pos_pow_of_pos _ (by norm_num)
      simp at hlen0
      omega
    have hlast : rows0.get? (rows0.length - 1) = some row := by
      rw [← List.getLast?_eq_get?]
      exact hrow
    have := hget (rows0.length - 1) row hlast
    rw [this] at hpr
    obtain ⟨jv, hjv, rfl⟩ := List.mem_map.mp hpr
    have hN : 0 < vars.length := by
      by_contra hN0
      push_neg at hN0
      interval_cases hv2 : vars.length
      · rw [List.length_eq_zero] at hv2
        rw [hv2] at hjv
        simp at hjv
    have hidx : rows0.length - 1 = 2 ^ vars.length - 1 := by omega
    rw [hidx]
    simp only [Nat.testBit_two_pow_sub_one]
    have : vars.length - 1 - jv.1 < vars.length := by omega
    simp [this]

/-- C6, counterexample.  A formula with 31 distinct variables: the
claim demands `2^31` rows, but the loop bound `1 << 31` is the 32-bit
value `-2^31`, so the generated table has no rows at all. -/
theorem C6_thirtyone_variables_no_rows :
    (extractVariables thirtyOneVarFormula).length = 31 ∧
    (generateTruthTable thirtyOneVarFormula).map (fun tt => tt.rows.length) = some 0 := by
  constructor
  · rfl
  · rfl

/-- C6 witness: the amended statement applied at the two-variable
formula `P and Q`, whose variable count 2 is at most 30. -/
theorem C6_truth_table_shape_witness :
    (extractVariables (.and (.var "P") (.var "Q"))).length ≤ 30 ∧
    ∃ tt, generateTruthTable (.and (.var "P") (.var "Q")) = some tt ∧
      tt.vars = extractVariables (.and (.var "P") (.var "Q")) ∧
      List.Sorted (fun a b : String => jsStringLe a b = true) tt.vars ∧
      tt.rows.length = 2 ^ tt.vars.length ∧
      (∀ i row, tt.rows.get? i = some row →
        row.inputs = tt.vars.enum.map
          (fun jv => (jv.2, !(i.testBit (tt.vars.length - 1 - jv.1))))) ∧
      (∀ row, tt.rows.head? = some row → ∀ pr ∈ row.inputs, pr.2 = true) ∧
      (∀ row, tt.rows.getLast? = some row → ∀ pr ∈ row.inputs, pr.2 = false) :=
  ⟨by decide, C6_truth_table_shape (.and (.var "P") (.var "Q")) (by decide)⟩
theorem tokenSpanInv_head (front rest : List Char) (pos : Nat) (ty : TokType)
    (hty : ty ≠ TokType.EOF) :
    tokenSpanInv (front ++ rest) pos ⟨ty, front, pos⟩ := by
  refine ⟨le_refl _, ?_, ?_, fun h => absurd h hty⟩
  · simp only [List.length_append]
    omega
  · rw [Nat.sub_self, List.drop_zero, List.take_left]

theorem tokenSpanInv_extend (front rest : List Char) (pos : Nat) (t : Token)
    (h : tokenSpanInv rest (pos + front.length) t) :
    tokenSpanInv (front ++ rest) pos t := by
  obtain ⟨h1, h2, h3, h4⟩ := h
  refine ⟨by omega, ?_, ?_, ?_⟩
  · simp only [List.length_append]
    omega
  · rw [List.drop_append_eq_append_drop]
    rw [List.drop_eq_nil_of_le (by omega : front.length ≤ t.position - pos)]
    rw [List.nil_append]
    have he : t.position - pos - front.length = t.position - (pos + front.length) := by
      omega
    rw [he]
    exact h3
  · intro he
    have := h4 he
    simp only [List.length_append]
    omega


set_option maxHeartbeats 1000000 in
theorem lex_tokenSpan (cs : List Char) (pos : Nat) :
    ∀ t ∈ lex cs pos, tokenSpanInv cs pos t := by
  induction cs, pos using lex.induct
  case case1 pos =>
    intro t ht
    rw [lex] at ht
    simp only [List.mem_singleton] at ht
    subst ht
    exact ⟨le_refl _, by simp, by simp, fun _ => by simp⟩
  case case2 c cs pos hw ih =>
    intro t ht
    rw [lex] at ht
    rw [if_pos hw] at ht
    exact tokenSpanInv_extend [c] cs pos t (ih t ht)
  case case3 cs pos h1 ih =>
    intro t ht
    rw [lex] at ht
    rw [if_neg h1, if_pos rfl] at ht
    rcases List.mem_cons.mp ht with rfl | ht
    · exact tokenSpanInv_head ['('] cs pos TokType.LPAREN (by decide)
    · exact tokenSpanInv_extend ['('] cs pos t (ih t ht)
  case case4 cs pos h1 h2 ih =>
    intro t ht
    rw [lex] at ht
    rw [if_neg h1, if_neg h2, if_pos rfl] at ht
    rcases List.mem_cons.mp ht with rfl | ht
    · exact tokenSpanInv_head [')'] cs pos TokType.RPAREN (by decide)
    · exact tokenSpanInv_extend [')'] cs pos t (ih t ht)
  case case5 c cs pos h1 h2 h3 h4 ih =>
    intro t ht
    rw [lex] at ht
    rw [if_neg h1, if_neg h2, if_neg h3, if_pos h4] at ht
    rcases List.mem_cons.mp ht with rfl | ht
    · exact tokenSpanInv_head [c] cs pos TokType.NOT (by decide)
    · exact tokenSpanInv_extend [c] cs pos t (ih t ht)
  case case6 c cs pos h1 h2 h3 h4 h5 ih =>
    intro t ht
    rw [lex] at ht
    rw [if_neg h1, if_neg h2, if_neg h3, if_neg h4, if_pos h5] at ht
    rcases List.mem_cons.mp ht with rfl | ht
    · exact tokenSpanInv_head [c] cs pos TokType.AND (by decide)
    · exact tokenSpanInv_extend [c] cs pos t (ih t ht)
  case case7 c cs pos h1 h2 h3 h4 h5 h6 ih =>
    obtain ⟨rfl, hh⟩ := h6
    cases cs with
    | nil => simp at hh
    | cons b bs =>
      simp only [List.head?_cons, Option.some.injEq] at hh
      subst hh
      intro t ht
      rw [lex] at ht
      rw [if_neg h1, if_neg h2, if_neg h3, if_neg h4, if_neg h5,
          if_pos ⟨rfl, rfl⟩] at ht
      rcases List.mem_cons.mp ht with rfl | ht
      · exact tokenSpanInv_head ['/', '\\'] bs pos TokType.AND (by decide)
      · exact tokenSpanInv_extend ['/', '\\'] bs pos t (ih t ht)
  case case8 cs pos h1 h2 h3 h4 h5 h6 ih =>
    intro t ht
    rw [lex] at ht
    rw [if_neg h1, if_neg h2, if_neg h3, if_neg h4, if_neg h5, if_neg h6,
        if_pos rfl] at ht
    rcases List.mem_cons.mp ht with rfl | ht
    · exact tokenSpanInv_head ['∨'] cs pos TokType.OR (by decide)
    · exact tokenSpanInv_extend ['∨'] cs pos t (ih t ht)
  case case9 cs pos h1 h2 h3 h4 h5 h6 h7 ih =>
    intro t ht
    rw [lex] at ht
    rw [if_neg h1, if_neg h2, if_neg h3, if_neg h4, if_neg h5, if_neg h6,
        if_neg h7, if_pos rfl] at ht
    rcases List.mem_cons.mp ht with rfl | ht
    · exact tokenSpanInv_head ['|'] cs pos TokType.OR (by decide)
    · exact tokenSpanInv_extend ['|'] cs pos t (ih t ht)
  case case10 c cs pos h1 h2 h3 h4 h5 h6 h7 h8 h9 ih =>
    obtain ⟨rfl, hh⟩ := h9
    cases cs with
    | nil => simp at hh
    | cons b bs =>
      simp only [List.head?_cons, Option.some.injEq] at hh
      subst hh
      intro t ht
      rw [lex] at ht
      rw [if_neg h1, if_neg h2, if_neg h3, if_neg h4, if_neg h5, if_neg h6,
          if_neg h7, if_neg h8, if_pos ⟨rfl, rfl⟩] at ht
      rcases List.mem_cons.mp ht with rfl | ht
      · exact tokenSpanInv_head ['\\', '/'] bs pos TokType.OR (by decide)
      · exact tokenSpanInv_extend ['\\', '/'] bs pos t (ih t ht)
  case case11 cs pos h1 h2 h3 h4 h5 h6 h7 h8 h9 ih =>
    intro t ht
    rw [lex] at ht
    rw [if_neg h1, if_neg h2, if_neg h3, if_neg h4, if_neg h5, if_neg h6,
        if_neg h7, if_neg h8, if_neg h9, if_pos rfl] at ht
    rcases List.mem_cons.mp ht with rfl | ht
    · exact tokenSpanInv_head ['↔'] cs pos TokType.IFF (by decide)
    · exact tokenSpanInv_extend ['↔'] cs pos t (ih t ht)
  case case12 c cs pos h1 h2 h3 h4 h5 h6 h7 h8 h9 h10 h11 ih =>
    obtain ⟨rfl, hh1, hh2⟩ := h11
    cases cs with
    | nil => simp at hh1
    | cons b bs =>
      simp only [List.head?_cons, Option.some.injEq] at hh1
      subst hh1
      cases bs with
      | nil => simp at hh2
      | cons b2 bs2 =>
        simp only [List.tail_cons, List.head?_cons, Option.some.injEq] at hh2
        subst hh2
        intro t ht
        rw [lex] at ht
        rw [if_neg h1, if_neg h2, if_neg h3, if_neg h4, if_neg h5, if_neg h6,
            if_neg h7, if_neg h8, if_neg h9, if_neg h10,
            if_pos ⟨rfl, rfl, rfl⟩] at ht
        rcases List.mem_cons.mp ht with rfl | ht
        · exact tokenSpanInv_head ['<', '-', '>'] bs2 pos TokType.IFF (by decide)
        · exact tokenSpanInv_extend ['<', '-', '>'] bs2 pos t (ih t ht)
  case case13 cs pos h1 h2 h3 h4 h5 h6 h7 h8 h9 h10 h11 ih =>
    intro t ht
    rw [lex] at ht
    rw [if_neg h1, if_neg h2, if_neg h3, if_neg h4, if_neg h5, if_neg h6,
        if_neg h7, if_neg h8, if_neg h9, if_neg h10, if_neg h11,
        if_pos rfl] at ht
    rcases List.mem_cons.mp ht with rfl | ht
    · exact tokenSpanInv_head ['→'] cs pos TokType.IMPLIES (by decide)
    · exact tokenSpanInv_extend ['→'] cs pos t (ih t ht)
  case case14 c cs pos h1 h2 h3 h4 h5 h6 h7 h8 h9 h10 h11 h12 h13 ih =>
    obtain ⟨rfl, hh⟩ := h13
    cases cs with
    | nil => simp at hh
    | cons b bs =>
      simp only [List.head?_cons, Option.some.injEq] at hh
      subst hh
      intro t ht
      rw [lex] at ht
      rw [if_neg h1, if_neg h2, if_neg h3, if_neg h4, if_neg h5, if_neg h6,
          if_neg h7, if_neg h8, if_neg h9, if_neg h10, if_neg h11, if_neg h12,
          if_pos ⟨rfl, rfl⟩] at ht
      rcases List.mem_cons.mp ht with rfl | ht
      · exact tokenSpanInv_head ['-', '>'] bs pos TokType.IMPLIES (by decide)
      · exact tokenSpanInv_extend ['-', '>'] bs pos t (ih t ht)
  case case15 cs pos h1 h2 h3 h4 h5 h6 h7 h8 h9 h10 h11 h12 h13 ih =>
    intro t ht
    rw [lex] at ht
    rw [if_neg h1, if_neg h2, if_neg h3, if_neg h4, if_neg h5, if_neg h6,
        if_neg h7, if_neg h8, if_neg h9, if_neg h10, if_neg h11, if_neg h12,
        if_neg h13, if_pos rfl] at ht
    rcases List.mem_cons.mp ht with rfl | ht
    · exact tokenSpanInv_head ['⊥'] cs pos TokType.BOTTOM (by decide)
    · exact tokenSpanInv_extend ['⊥'] cs pos t (ih t ht)
  case case16 c cs pos h1 h2 h3 h4 h5 h6 h7 h8 h9 h10 h11 h12 h13 h14 h15 ih =>
    obtain ⟨rfl, hh1, hh2⟩ := h15
    cases cs with
    | nil => simp at hh1
    | cons b bs =>
      simp only [List.head?_cons, Option.some.injEq] at hh1
      subst hh1
      cases bs with
      | nil => simp at hh2
      | cons b2 bs2 =>
        simp only [List.tail_cons, List.head?_cons, Option.some.injEq] at hh2
        subst hh2
        intro t ht
        rw [lex] at ht
        rw [if_neg h1, if_neg h2, if_neg h3, if_neg h4, if_neg h5, if_neg h6,
            if_neg h7, if_neg h8, if_neg h9, if_neg h10, if_neg h11,
            if_neg h12, if_neg h13, if_neg h14, if_pos ⟨rfl, rfl, rfl⟩] at ht
        rcases List.mem_cons.mp ht with rfl | ht
        · exact tokenSpanInv_head ['_', '|', '_'] bs2 pos TokType.BOTTOM (by decide)
        · exact tokenSpanInv_extend ['_', '|', '_'] bs2 pos t (ih t ht)
  case case17 c cs pos h1 h2 h3 h4 h5 h6 h7 h8 h9 h10 h11 h12 h13 h14 h15 h16 nm ih =>
    intro t ht
    rw [lex] at ht
    rw [if_neg h1, if_neg h2, if_neg h3, if_neg h4, if_neg h5, if_neg h6,
        if_neg h7, if_neg h8, if_neg h9, if_neg h10, if_neg h11, if_neg h12,
        if_neg h13, if_neg h14, if_neg h15, if_pos h16] at ht
    rcases List.mem_cons.mp ht with rfl | ht
    · have h0 := tokenSpanInv_head (List.takeWhile isAlnumChar (c :: cs))
        (List.dropWhile isAlnumChar (c :: cs)) pos TokType.VAR (by decide)
      rw [List.takeWhile_append_dropWhile] at h0
      exact h0
    · have h0 := tokenSpanInv_extend (List.takeWhile isAlnumChar (c :: cs))
        (List.dropWhile isAlnumChar (c :: cs)) pos t (ih t ht)
      rw [List.takeWhile_append_dropWhile] at h0
      exact h0
  case case18 c cs pos h1 h2 h3 h4 h5 h6 h7 h8 h9 h10 h11 h12 h13 h14 h15 h16 ih =>
    intro t ht
    rw [lex] at ht
    rw [if_neg h1, if_neg h2, if_neg h3, if_neg h4, if_neg h5, if_neg h6,
        if_neg h7, if_neg h8, if_neg h9, if_neg h10, if_neg h11, if_neg h12,
        if_neg h13, if_neg h14, if_neg h15, if_neg h16] at ht
    rcases List.mem_cons.mp ht with rfl | ht
    · exact tokenSpanInv_head [c] cs pos TokType.VAR (by decide)
    · exact tokenSpanInv_extend [c] cs pos t (ih t ht)

theorem tokenize_notP :
    tokenize ['¬', 'P'] =
      [⟨TokType.NOT, ['¬'], 0⟩, ⟨TokType.VAR, ['P'], 1⟩, ⟨TokType.EOF, [], 2⟩] := by
  simp [tokenize, lex, List.takeWhile_cons, List.dropWhile_cons,
    isWhitespaceJS, isAlphaChar, isAlnumChar]

theorem tokenize_P :
    tokenize ['P'] = [⟨TokType.VAR, ['P'], 0⟩, ⟨TokType.EOF, [], 1⟩] := by
  simp [tokenize, lex, List.takeWhile_cons, List.dropWhile_cons,
    isWhitespaceJS, isAlphaChar, isAlnumChar]

/-- C9, counterexample.  Positions are not byte offsets: on the input
`¬P` the EOF token carries position 2 (the number of characters read),
while the UTF-8 byte length of the input is 3, because `¬` occupies
two bytes; the lexer advances its position by one per character
regardless of encoded width. -/
theorem C9_positions_not_byte_offsets :
    ∃ t ∈ tokenize ['¬', 'P'], t.type = TokType.EOF ∧ t.position = 2 ∧
      utf8ByteLength ['¬', 'P'] = 3 ∧ t.position ≠ utf8ByteLength ['¬', 'P'] := by
  refine ⟨⟨TokType.EOF, [], 2⟩, ?_, rfl, rfl, by decide, by decide⟩
  rw [tokenize_notP]
  simp

/-- C9, amended.  Every token emitted by the lexer carries a position
equal to the zero-based character offset (UTF-16 code-unit offset for
basic-plane input, not the byte offset) of its first character in the
source: the slice of the input starting at the token position of the
length of its value is exactly that value, and the EOF token position
is the input length in characters. -/
theorem C9_token_positions (input : List Char) (t : Token) (ht : t ∈ tokenize input) :
    (input.drop t.position).take t.value.length = t.value ∧
    (t.type = TokType.EOF → t.position = input.length) := by
  obtain ⟨h1, h2, h3, h4⟩ := lex_tokenSpan input 0 t ht
  rw [Nat.sub_zero] at h3
  rw [Nat.zero_add] at h4
  exact ⟨h3, h4⟩

/-- C9 witness: the amended statement applied to the EOF token of the
tokenization of `P`. -/
theorem C9_token_positions_witness :
    (⟨TokType.EOF, [], 1⟩ : Token) ∈ tokenize ['P'] ∧
    ((['P'].drop 1).take 0 = ([] : List Char) ∧
      (TokType.EOF = TokType.EOF → 1 = (['P'] : List Char).length)) := by
  have hmem : (⟨TokType.EOF, [], 1⟩ : Token) ∈ tokenize ['P'] := by
    rw [tokenize_P]
    simp
  exact ⟨hmem, C9_token_positions ['P'] ⟨TokType.EOF, [], 1⟩ hmem⟩

theorem glueOk_cons (c : Char) (cs : List Char) (h : isAlnumChar c = false) :
    glueOk (c :: cs) = true := by
  simp [glueOk, h]

theorem lex_lparen (cs : List Char) (pos : Nat) :
    lex ('(' :: cs) pos = ⟨.LPAREN, ['('], pos⟩ :: lex cs (pos + 1) := by
  rw [lex, if_neg (by decide), if_pos rfl]

theorem lex_rparen (cs : List Char) (pos : Nat) :
    lex (')' :: cs) pos = ⟨.RPAREN, [')'], pos⟩ :: lex cs (pos + 1) := by
  rw [lex, if_neg (by decide), if_neg (by decide), if_pos rfl]

theorem lex_notSym (m : DisplayMode) (cs : List Char) (pos : Nat) :
    lex (notSym m ++ cs) pos = ⟨.NOT, notSym m, pos⟩ :: lex cs (pos + 1) := by
  cases m
  · rw [show notSym .ascii ++ cs = '~' :: cs from rfl]
    rw [lex, if_neg (by decide), if_neg (by decide), if_neg (by decide),
        if_pos (by decide)]
    rfl
  · rw [show notSym .utf8 ++ cs = '¬' :: cs from rfl]
    rw [lex, if_neg (by decide), if_neg (by decide), if_neg (by decide),
        if_pos (by decide)]
    rfl

theorem lex_bottomSym (m : DisplayMode) (cs : List Char) (pos : Nat) :
    lex (bottomSym m ++ cs) pos =
      ⟨.BOTTOM, bottomSym m, pos⟩ :: lex cs (pos + (bottomSym m).length) := by
  cases m
  · rw [show bottomSym .ascii ++ cs = '_' :: '|' :: '_' :: cs from rfl]
    rw [lex, if_neg (by first | decide | simp), if_neg (by first | decide | simp), if_neg (by first | decide | simp), if_neg (by first | decide | simp), if_neg (by first | decide | simp), if_neg (by first | decide | simp), if_neg (by first | decide | simp), if_neg (by first | decide | simp), if_neg (by first | decide | simp), if_neg (by first | decide | simp), if_neg (by first | decide | simp), if_neg (by first | decide | simp), if_neg (by first | decide | simp), if_neg (by first | decide | simp), if_pos ⟨rfl, rfl, rfl⟩]
    simp only [List.tail_cons]
    rfl
  · rw [show bottomSym .utf8 ++ cs = '⊥' :: cs from rfl]
    rw [lex, if_neg (by first | decide | simp), if_neg (by first | decide | simp), if_neg (by first | decide | simp), if_neg (by first | decide | simp), if_neg (by first | decide | simp), if_neg (by first | decide | simp), if_neg (by first | decide | simp), if_neg (by first | decide | simp), if_neg (by first | decide | simp), if_neg (by first | decide | simp), if_neg (by first | decide | simp), if_neg (by first | decide | simp), if_neg (by first | decide | simp), if_pos rfl]
    rfl

theorem lex_andSym (m : DisplayMode) (cs : List Char) (pos : Nat) :
    lex (andSym m ++ cs) pos =
      ⟨.AND, andVal m, pos + 1⟩ :: lex cs (pos + (andSym m).length) := by
  cases m
  · rw [show andSym .ascii ++ cs = ' ' :: '/' :: '\\' :: ' ' :: cs from rfl]
    rw [lex, if_pos (by decide)]
    rw [lex, if_neg (by first | decide | simp), if_neg (by first | decide | simp), if_neg (by first | decide | simp), if_neg (by first | decide | simp), if_neg (by first | decide | simp), if_pos ⟨rfl, rfl⟩]
    simp only [List.tail_cons]
    rw [lex, if_pos (by decide)]
    rw [show pos + 1 + 2 + 1 = pos + (andSym DisplayMode.ascii).length from by
      simp [andSym]]
    rfl
  · rw [show andSym .utf8 ++ cs = ' ' :: '∧' :: ' ' :: cs from rfl]
    rw [lex, if_pos (by decide)]
    rw [lex, if_neg (by first | decide | simp), if_neg (by first | decide | simp), if_neg (by first | decide | simp), if_neg (by first | decide | simp), if_pos (by decide)]
    rw [lex, if_pos (by decide)]
    rw [show pos + 1 + 1 + 1 = pos + (andSym DisplayMode.utf8).length from by
      simp [andSym]]
    rfl

theorem lex_orSym (m : DisplayMode) (cs : List Char) (pos : Nat) :
    lex (orSym m ++ cs) pos =
      ⟨.OR, orVal m, pos + 1⟩ :: lex cs (pos + (orSym m).length) := by
  cases m
  · rw [show orSym .ascii ++ cs = ' ' :: '\\' :: '/' :: ' ' :: cs from rfl]
    rw [lex, if_pos (by decide)]
    rw [lex, if_neg (by first | decide | simp), if_neg (by first | decide | simp), if_neg (by first | decide | simp), if_neg (by first | decide | simp), if_neg (by first | decide | simp), if_neg (by first | decide | simp), if_neg (by first | decide | simp), if_neg (by first | decide | simp), if_pos ⟨rfl, rfl⟩]
    simp only [List.tail_cons]
    rw [lex, if_pos (by decide)]
    rw [show pos + 1 + 2 + 1 = pos + (orSym DisplayMode.ascii).length from by
      simp [orSym]]
    rfl
  · rw [show orSym .utf8 ++ cs = ' ' :: '∨' :: ' ' :: cs from rfl]
    rw [lex, if_pos (by decide)]
    rw [lex, if_neg (by first | decide | simp), if_neg (by first | decide | simp), if_neg (by first | decide | simp), if_neg (by first | decide | simp), if_neg (by first | decide | simp), if_neg (by first | decide | simp), if_pos rfl]
    rw [lex, if_pos (by decide)]
    rw [show pos + 1 + 1 + 1 = pos + (orSym DisplayMode.utf8).length from by
      simp [orSym]]
    rfl

theorem lex_impliesSym (m : DisplayMode) (cs : List Char) (pos : Nat) :
    lex (impliesSym m ++ cs) pos =
      ⟨.IMPLIES, impliesVal m, pos + 1⟩ :: lex cs (pos + (impliesSym m).length) := by
  cases m
  · rw [show impliesSym .ascii ++ cs = ' ' :: '-' :: '>' :: ' ' :: cs from rfl]
    rw [lex, if_pos (by decide)]
    rw [lex, if_neg (by first | decide | simp), if_neg (by first | decide | simp), if_neg (by first | decide | simp), if_neg (by first | decide | simp), if_neg (by first | decide | simp), if_neg (by first | decide | simp), if_neg (by first | decide | simp), if_neg (by first | decide | simp), if_neg (by first | decide | simp), if_neg (by first | decide | simp), if_neg (by first | decide | simp), if_neg (by first | decide | simp), if_pos ⟨rfl, rfl⟩]
    simp only [List.tail_cons]
    rw [lex, if_pos (by decide)]
    rw [show pos + 1 + 2 + 1 = pos + (impliesSym DisplayMode.ascii).length from by
      simp [impliesSym]]
    rfl
  · rw [show impliesSym .utf8 ++ cs = ' ' :: '→' :: ' ' :: cs from rfl]
    rw [lex, if_pos (by decide)]
    rw [lex, if_neg (by first | decide | simp), if_neg (by first | decide | simp), if_neg (by first | decide | simp), if_neg (by first | decide | simp), if_neg (by first | decide | simp), if_neg (by first | decide | simp), if_neg (by first | decide | simp), if_neg (by first | decide | simp), if_neg (by first | decide | simp), if_neg (by first | decide | simp), if_neg (by first | decide | simp), if_pos rfl]
    rw [lex, if_pos (by decide)]
    rw [show pos + 1 + 1 + 1 = pos + (impliesSym DisplayMode.utf8).length from by
      simp [impliesSym]]
    rfl

theorem lex_iffSym (m : DisplayMode) (cs : List Char) (pos : Nat) :
    lex (iffSym m ++ cs) pos =
      ⟨.IFF, iffVal m, pos + 1⟩ :: lex cs (pos + (iffSym m).length) := by
  cases m
  · rw [show iffSym .ascii ++ cs = ' ' :: '<' :: '-' :: '>' :: ' ' :: cs from rfl]
    rw [lex, if_pos (by decide)]
    rw [lex, if_neg (by first | decide | simp), if_neg (by first | decide | simp), if_neg (by first | decide | simp), if_neg (by first | decide | simp), if_neg (by first | decide | simp), if_neg (by first | decide | simp), if_neg (by first | decide | simp), if_neg (by first | decide | simp), if_neg (by first | decide | simp), if_neg (by first | decide | simp), if_pos ⟨rfl, rfl, rfl⟩]
    simp only [List.tail_cons]
    rw [lex, if_pos (by decide)]
    rw [show pos + 1 + 3 + 1 = pos + (iffSym DisplayMode.ascii).length from by
      simp [iffSym]]
    rfl
  · rw [show iffSym .utf8 ++ cs = ' ' :: '↔' :: ' ' :: cs from rfl]
    rw [lex, if_pos (by decide)]
    rw [lex, if_neg (by first | decide | simp), if_neg (by first | decide | simp), if_neg (by first | decide | simp), if_neg (by first | decide | simp), if_neg (by first | decide | simp), if_neg (by first | decide | simp), if_neg (by first | decide | simp), if_neg (by first | decide | simp), if_neg (by first | decide | simp), if_pos rfl]
    rw [lex, if_pos (by decide)]
    rw [show pos + 1 + 1 + 1 = pos + (iffSym DisplayMode.utf8).length from by
      simp [iffSym]]
    rfl

theorem uint32_le_iff_toNat_le (a b : UInt32) : a ≤ b ↔ a.toNat ≤ b.toNat :=
  Iff.rfl

theorem isAlphaChar_iff (c : Char) : isAlphaChar c = true ↔
    (65 ≤ c.val.toNat ∧ c.val.toNat ≤ 90) ∨ (97 ≤ c.val.toNat ∧ c.val.toNat ≤ 122) := by
  simp [isAlphaChar, uint32_le_iff_toNat_le, UInt32.size]

theorem uint32_eq_iff_toNat_eq (a b : UInt32) : a = b ↔ a.toNat = b.toNat := by
  constructor
  · intro h
    rw [h]
  · intro h
    exact UInt32.ext h

theorem isAlnumChar_iff (c : Char) : isAlnumChar c = true ↔
    (65 ≤ c.val.toNat ∧ c.val.toNat ≤ 90) ∨ (97 ≤ c.val.toNat ∧ c.val.toNat ≤ 122) ∨
    (48 ≤ c.val.toNat ∧ c.val.toNat ≤ 57) := by
  simp [isAlnumChar, isAlphaChar_iff, uint32_le_iff_toNat_le, UInt32.size, or_assoc]

theorem alpha_not_ws (c : Char) (h : isAlphaChar c = true) : isWhitespaceJS c = false := by
  rw [isAlphaChar_iff] at h
  simp only [isWhitespaceJS, Bool.or_eq_false_iff, beq_eq_false_iff_ne, ne_eq,
    Bool.and_eq_false_iff, decide_eq_false_iff_not, uint32_le_iff_toNat_le,
    uint32_eq_iff_toNat_eq, UInt32.size]
  norm_num
  omega

theorem alnum_ne_char (c d : Char) (h : isAlnumChar c = true) (hd : isAlnumChar d = false) :
    c ≠ d := by
  intro he
  rw [he, hd] at h
  exact Bool.noConfusion h

theorem takeWhile_append_all (p : Char → Bool) (l1 l2 : List Char)
    (h1 : ∀ a ∈ l1, p a = true) (h2 : ∀ c ∈ l2.head?, p c = false) :
    (l1 ++ l2).takeWhile p = l1 ∧ (l1 ++ l2).dropWhile p = l2 := by
  induction l1 with
  | nil =>
    cases l2 with
    | nil => exact ⟨rfl, rfl⟩
    | cons c cs2 =>
      have hc := h2 c (by simp)
      constructor
      · simp [List.takeWhile_cons, hc]
      · simp [List.dropWhile_cons, hc]
  | cons a l1 ih =>
    have hpa := h1 a (by simp)
    obtain ⟨iht, ihd⟩ := ih (fun x hx => h1 x (by simp [hx]))
    constructor
    · simp [List.takeWhile_cons, hpa, iht]
    · simp [List.dropWhile_cons, hpa, ihd]

theorem lex_ident (c : Char) (r cs : List Char) (pos : Nat)
    (halpha : isAlphaChar c = true) (hall : ∀ a ∈ r, isAlnumChar a = true)
    (hglue : glueOk cs = true) :
    lex ((c :: r) ++ cs) pos =
      ⟨.VAR, c :: r, pos⟩ :: lex cs (pos + (c :: r).length) := by
  have halnum : isAlnumChar c = true := by
    simp [isAlnumChar, halpha]
  have hallc : ∀ a ∈ c :: r, isAlnumChar a = true := by
    intro a ha
    rcases List.mem_cons.mp ha with rfl | ha
    · exact halnum
    · exact hall a ha
  have hglue2 : ∀ d ∈ cs.head?, isAlnumChar d = false := by
    intro d hd
    cases cs with
    | nil => simp at hd
    | cons e es =>
      simp only [List.head?_cons, Option.mem_def, Option.some.injEq] at hd
      subst hd
      simp only [glueOk, Bool.not_eq_true'] at hglue
      exact hglue
  obtain ⟨htake0, hdrop0⟩ := takeWhile_append_all isAlnumChar (c :: r) cs hallc hglue2
  have htake : List.takeWhile isAlnumChar (c :: (r ++ cs)) = c :: r := htake0
  have hdrop : List.dropWhile isAlnumChar (c :: (r ++ cs)) = cs := hdrop0
  rw [show (c :: r) ++ cs = c :: (r ++ cs) from rfl]
  rw [lex,
    if_neg (by simp [alpha_not_ws c halpha]),
    if_neg (alnum_ne_char c '(' halnum (by decide)),
    if_neg (alnum_ne_char c ')' halnum (by decide)),
    if_neg (by rintro (rfl | rfl) <;> exact absurd halpha (by decide)),
    if_neg (by rintro (rfl | rfl) <;> exact absurd halpha (by decide)),
    if_neg (fun hc => alnum_ne_char c '/' halnum (by decide) hc.1),
    if_neg (alnum_ne_char c '∨' halnum (by decide)),
    if_neg (alnum_ne_char c '|' halnum (by decide)),
    if_neg (fun hc => alnum_ne_char c '\\' halnum (by decide) hc.1),
    if_neg (alnum_ne_char c '↔' halnum (by decide)),
    if_neg (fun hc => alnum_ne_char c '<' halnum (by decide) hc.1),
    if_neg (alnum_ne_char c '→' halnum (by decide)),
    if_neg (fun hc => alnum_ne_char c '-' halnum (by decide) hc.1),
    if_neg (alnum_ne_char c '⊥' halnum (by decide)),
    if_neg (fun hc => alnum_ne_char c '_' halnum (by decide) hc.1),
    if_pos halpha]
  rw [htake, hdrop]

theorem printChars_shape (f : Formula) (m : DisplayMode) (p : Nat) :
    printChars f m p =
      if precedenceOf f < p then '(' :: (printChars f m 0 ++ [')'])
      else printChars f m 0 := by
  cases f <;> simp [printChars, precedenceOf]

theorem emitTV_shape (f : Formula) (m : DisplayMode) (p : Nat) :
    emitTV f m p =
      if precedenceOf f < p then
        (TokType.LPAREN, ['(']) :: emitTV f m 0 ++ [(TokType.RPAREN, [')'])]
      else emitTV f m 0 := by
  cases f <;> simp [emitTV, precedenceOf]

theorem printChars_zero_var (n : String) (m : DisplayMode) :
    printChars (.var n) m 0 = n.data := by
  simp [printChars, precedenceOf]

theorem printChars_zero_bottom (m : DisplayMode) :
    printChars .bottom m 0 = bottomSym m := by
  simp [printChars, precedenceOf]

theorem printChars_zero_not (x : Formula) (m : DisplayMode) :
    printChars (.not x) m 0 = notSym m ++ printChars x m 50 := by
  simp [printChars, precedenceOf]

theorem printChars_zero_and (l r : Formula) (m : DisplayMode) :
    printChars (.and l r) m 0 = printChars l m 40 ++ andSym m ++ printChars r m 41 := by
  simp [printChars, precedenceOf]

theorem printChars_zero_or (l r : Formula) (m : DisplayMode) :
    printChars (.or l r) m 0 = printChars l m 30 ++ orSym m ++ printChars r m 31 := by
  simp [printChars, precedenceOf]

theorem printChars_zero_implies (l r : Formula) (m : DisplayMode) :
    printChars (.implies l r) m 0 =
      printChars l m 21 ++ impliesSym m ++ printChars r m 20 := by
  simp [printChars, precedenceOf]

theorem printChars_zero_iff (l r : Formula) (m : DisplayMode) :
    printChars (.iff l r) m 0 = printChars l m 10 ++ iffSym m ++ printChars r m 11 := by
  simp [printChars, precedenceOf]

theorem emitTV_zero_var (n : String) (m : DisplayMode) :
    emitTV (.var n) m 0 = [(TokType.VAR, n.data)] := by
  simp [emitTV, precedenceOf]

theorem emitTV_zero_bottom (m : DisplayMode) :
    emitTV .bottom m 0 = [(TokType.BOTTOM, bottomSym m)] := by
  simp [emitTV, precedenceOf]

theorem emitTV_zero_not (x : Formula) (m : DisplayMode) :
    emitTV (.not x) m 0 = (TokType.NOT, notSym m) :: emitTV x m 50 := by
  simp [emitTV, precedenceOf]

theorem emitTV_zero_and (l r : Formula) (m : DisplayMode) :
    emitTV (.and l r) m 0 = emitTV l m 40 ++ (TokType.AND, andVal m) :: emitTV r m 41 := by
  simp [emitTV, precedenceOf]

theorem emitTV_zero_or (l r : Formula) (m : DisplayMode) :
    emitTV (.or l r) m 0 = emitTV l m 30 ++ (TokType.OR, orVal m) :: emitTV r m 31 := by
  simp [emitTV, precedenceOf]

theorem emitTV_zero_implies (l r : Formula) (m : DisplayMode) :
    emitTV (.implies l r) m 0 =
      emitTV l m 21 ++ (TokType.IMPLIES, impliesVal m) :: emitTV r m 20 := by
  simp [emitTV, precedenceOf]

theorem emitTV_zero_iff (l r : Formula) (m : DisplayMode) :
    emitTV (.iff l r) m 0 = emitTV l m 10 ++ (TokType.IFF, iffVal m) :: emitTV r m 11 := by
  simp [emitTV, precedenceOf]

theorem notSym_length (m : DisplayMode) : (notSym m).length = 1 := by
  cases m <;> rfl

theorem glue_andSym (m : DisplayMode) (cs : List Char) : glueOk (andSym m ++ cs) = true := by
  cases m <;> rfl

theorem glue_orSym (m : DisplayMode) (cs : List Char) : glueOk (orSym m ++ cs) = true := by
  cases m <;> rfl

theorem glue_impliesSym (m : DisplayMode) (cs : List Char) :
    glueOk (impliesSym m ++ cs) = true := by
  cases m <;> rfl

theorem glue_iffSym (m : DisplayMode) (cs : List Char) : glueOk (iffSym m ++ cs) = true := by
  cases m <;> rfl

theorem lexPrint_wrap (f : Formula) (m : DisplayMode)
    (hbare : ∀ pos rest, glueOk rest = true →
      (lex (printChars f m 0 ++ rest) pos).map stripTok =
        emitTV f m 0 ++ (lex rest (pos + (printChars f m 0).length)).map stripTok) :
    ∀ p pos rest, glueOk rest = true →
      (lex (printChars f m p ++ rest) pos).map stripTok =
        emitTV f m p ++ (lex rest (pos + (printChars f m p).length)).map stripTok := by
  intro p pos rest hglue
  rw [printChars_shape f m p, emitTV_shape f m p]
  by_cases hp : precedenceOf f < p
  · rw [if_pos hp, if_pos hp]
    rw [show ('(' :: (printChars f m 0 ++ [')'])) ++ rest
        = '(' :: (printChars f m 0 ++ (')' :: rest)) from by simp]
    rw [lex_lparen, List.map_cons]
    rw [hbare (pos + 1) (')' :: rest) (glueOk_cons _ _ (by decide))]
    rw [lex_rparen, List.map_cons]
    have hx : pos + 1 + (printChars f m 0).length + 1 =
        pos + ('(' :: (printChars f m 0 ++ [')'])).length := by
      simp only [List.length_cons, List.length_append, List.length_nil]
      omega
    rw [hx]
    simp [stripTok]
  · rw [if_neg hp, if_neg hp]
    exact hbare pos rest hglue

theorem lexPrint (f : Formula) (m : DisplayMode) :
    wellFormedFormula f = true →
    ∀ p pos rest, glueOk rest = true →
      (lex (printChars f m p ++ rest) pos).map stripTok =
        emitTV f m p ++ (lex rest (pos + (printChars f m p).length)).map stripTok := by
  induction f with
  | var nm =>
    intro hwf
    apply lexPrint_wrap
    intro pos rest hglue
    rw [printChars_zero_var, emitTV_zero_var]
    rcases hdata : nm.data with _ | ⟨c, r⟩
    · simp only [wellFormedFormula, wellFormedName, hdata] at hwf
      exact Bool.noConfusion hwf
    · simp only [wellFormedFormula, wellFormedName, hdata, Bool.and_eq_true,
        List.all_eq_true] at hwf
      obtain ⟨halpha, hall⟩ := hwf
      rw [lex_ident c r rest pos halpha hall hglue]
      rw [List.map_cons]
      rfl
  | bottom =>
    intro _
    apply lexPrint_wrap
    intro pos rest hglue
    rw [printChars_zero_bottom, emitTV_zero_bottom, lex_bottomSym, List.map_cons]
    rfl
  | not x ihx =>
    intro hwf
    apply lexPrint_wrap
    intro pos rest hglue
    rw [printChars_zero_not, emitTV_zero_not]
    rw [List.append_assoc, lex_notSym, List.map_cons]
    rw [ihx (by simpa [wellFormedFormula] using hwf) 50 (pos + 1) rest hglue]
    have hx : pos + 1 + (printChars x m 50).length =
        pos + (notSym m ++ printChars x m 50).length := by
      simp only [List.length_append, notSym_length]
      omega
    rw [hx]
    rfl
  | and l r ihl ihr =>
    intro hwf
    simp only [wellFormedFormula, Bool.and_eq_true] at hwf
    obtain ⟨hwl, hwr⟩ := hwf
    apply lexPrint_wrap
    intro pos rest hglue
    rw [printChars_zero_and, emitTV_zero_and]
    rw [show (printChars l m 40 ++ andSym m ++ printChars r m 41) ++ rest
        = printChars l m 40 ++ (andSym m ++ (printChars r m 41 ++ rest)) from by simp]
    rw [ihl hwl 40 pos _ (glue_andSym m _)]
    rw [lex_andSym, List.map_cons]
    rw [ihr hwr 41 _ rest hglue]
    have hx : pos + (printChars l m 40).length + (andSym m).length +
        (printChars r m 41).length =
        pos + (printChars l m 40 ++ andSym m ++ printChars r m 41).length := by
      simp only [List.length_append]
      omega
    rw [hx]
    simp [stripTok]
  | or l r ihl ihr =>
    intro hwf
    simp only [wellFormedFormula, Bool.and_eq_true] at hwf
    obtain ⟨hwl, hwr⟩ := hwf
    apply lexPrint_wrap
    intro pos rest hglue
    rw [printChars_zero_or, emitTV_zero_or]
    rw [show (printChars l m 30 ++ orSym m ++ printChars r m 31) ++ rest
        = printChars l m 30 ++ (orSym m ++ (printChars r m 31 ++ rest)) from by simp]
    rw [ihl hwl 30 pos _ (glue_orSym m _)]
    rw [lex_orSym, List.map_cons]
    rw [ihr hwr 31 _ rest hglue]
    have hx : pos + (printChars l m 30).length + (orSym m).length +
        (printChars r m 31).length =
        pos + (printChars l m 30 ++ orSym m ++ printChars r m 31).length := by
      simp only [List.length_append]
      omega
    rw [hx]
    simp [stripTok]
  | implies l r ihl ihr =>
    intro hwf
    simp only [wellFormedFormula, Bool.and_eq_true] at hwf
    obtain ⟨hwl, hwr⟩ := hwf
    apply lexPrint_wrap
    intro pos rest hglue
    rw [printChars_zero_implies, emitTV_zero_implies]
    rw [show (printChars l m 21 ++ impliesSym m ++ printChars r m 20) ++ rest
        = printChars l m 21 ++ (impliesSym m ++ (printChars r m 20 ++ rest)) from by simp]
    rw [ihl hwl 21 pos _ (glue_impliesSym m _)]
    rw [lex_impliesSym, List.map_cons]
    rw [ihr hwr 20 _ rest hglue]
    have hx : pos + (printChars l m 21).length + (impliesSym m).length +
        (printChars r m 20).length =
        pos + (printChars l m 21 ++ impliesSym m ++ printChars r m 20).length := by
      simp only [List.length_append]
      omega
    rw [hx]
    simp [stripTok]
  | iff l r ihl ihr =>
    intro hwf
    simp only [wellFormedFormula, Bool.and_eq_true] at hwf
    obtain ⟨hwl, hwr⟩ := hwf
    apply lexPrint_wrap
    intro pos rest hglue
    rw [printChars_zero_iff, emitTV_zero_iff]
    rw [show (printChars l m 10 ++ iffSym m ++ printChars r m 11) ++ rest
        = printChars l m 10 ++ (iffSym m ++ (printChars r m 11 ++ rest)) from by simp]
    rw [ihl hwl 10 pos _ (glue_iffSym m _)]
    rw [lex_iffSym, List.map_cons]
    rw [ihr hwr 11 _ rest hglue]
    have hx : pos + (printChars l m 10).length + (iffSym m).length +
        (printChars r m 11).length =
        pos + (printChars l m 10 ++ iffSym m ++ printChars r m 11).length := by
      simp only [List.length_append]
      omega
    rw [hx]
    simp [stripTok]

theorem strip_append_inv (ts : List Token) (l1 l2 : List (TokType × List Char))
    (h : ts.map stripTok = l1 ++ l2) :
    ∃ t1 t2, ts = t1 ++ t2 ∧ t1.map stripTok = l1 ∧ t2.map stripTok = l2 :=
  List.append_eq_map_iff.mp h.symm

theorem strip_cons_inv (ts : List Token) (x : TokType × List Char)
    (l : List (TokType × List Char)) (h : ts.map stripTok = x :: l) :
    ∃ t ts2, ts = t :: ts2 ∧ t.type = x.1 ∧ t.value = x.2 ∧ ts2.map stripTok = l := by
  rw [List.map_eq_cons_iff] at h
  obtain ⟨t, ts2, rfl, hx, hl⟩ := h
  refine ⟨t, ts2, rfl, ?_, ?_, hl⟩
  · rw [← hx]
    rfl
  · rw [← hx]
    rfl

theorem strip_nil_inv (ts : List Token) (h : ts.map stripTok = []) : ts = [] := by
  cases ts with
  | nil => rfl
  | cons t ts2 => simp at h

theorem andHead_foldl (f : Formula) : (andItems f).foldl .and (andHead f) = f := by
  induction f <;> simp [andItems, andHead, List.foldl_append, *]

theorem orHead_foldl (f : Formula) : (orItems f).foldl .or (orHead f) = f := by
  induction f <;> simp [orItems, orHead, List.foldl_append, *]

theorem iffHead_foldl (f : Formula) : (iffItems f).foldl .iff (iffHead f) = f := by
  induction f <;> simp [iffItems, iffHead, List.foldl_append, *]

theorem buildImpliesChain_spine (b : Formula) :
    ∀ a, buildImpliesChain a (impOps b ++ [impLast b]) = .implies a b := by
  induction b <;> intro a <;> simp [impOps, impLast, buildImpliesChain, *]

theorem andHead_ne (f : Formula) : precedenceOf (andHead f) ≠ 40 := by
  induction f <;> simp only [andHead] <;> first | assumption | simp [precedenceOf]

theorem orHead_ne (f : Formula) : precedenceOf (orHead f) ≠ 30 := by
  induction f <;> simp only [orHead] <;> first | assumption | simp [precedenceOf]

theorem iffHead_ne (f : Formula) : precedenceOf (iffHead f) ≠ 10 := by
  induction f <;> simp only [iffHead] <;> first | assumption | simp [precedenceOf]

theorem impLast_ne (f : Formula) : precedenceOf (impLast f) ≠ 20 := by
  induction f <;> simp only [impLast] <;> first | assumption | simp [precedenceOf]

theorem andHead_size (f : Formula) : sizeOf (andHead f) ≤ sizeOf f := by
  induction f <;> simp [andHead] <;> omega

theorem orHead_size (f : Formula) : sizeOf (orHead f) ≤ sizeOf f := by
  induction f <;> simp [orHead] <;> omega

theorem iffHead_size (f : Formula) : sizeOf (iffHead f) ≤ sizeOf f := by
  induction f <;> simp [iffHead] <;> omega

theorem impLast_size (f : Formula) : sizeOf (impLast f) ≤ sizeOf f := by
  induction f <;> simp [impLast] <;> omega

theorem andItems_size (f : Formula) : ∀ x ∈ andItems f, sizeOf x < sizeOf f := by
  induction f <;> simp [andItems]
  case and a b iha _ =>
    intro x hx
    rcases hx with hx | rfl
    · have := iha x hx
      omega
    · omega

theorem orItems_size (f : Formula) : ∀ x ∈ orItems f, sizeOf x < sizeOf f := by
  induction f <;> simp [orItems]
  case or a b iha _ =>
    intro x hx
    rcases hx with hx | rfl
    · have := iha x hx
      omega
    · omega

theorem iffItems_size (f : Formula) : ∀ x ∈ iffItems f, sizeOf x < sizeOf f := by
  induction f <;> simp [iffItems]
  case iff a b iha _ =>
    intro x hx
    rcases hx with hx | rfl
    · have := iha x hx
      omega
    · omega

theorem impOps_size (f : Formula) : ∀ x ∈ impOps f, sizeOf x < sizeOf f := by
  induction f <;> simp [impOps]
  case implies a b _ ihb =>
    constructor
    · omega
    · intro x hx
      have := ihb x hx
      omega

theorem emit_and_decomp (a b : Formula) (m : DisplayMode) :
    emitTV (.and a b) m 0 =
      emitTV (andHead (.and a b)) m 40 ++
        (andItems (.and a b)).flatMap
          (fun x => (TokType.AND, andVal m) :: emitTV x m 41) := by
  induction a generalizing b with
  | and a1 a2 ih1 _ =>
    rw [emitTV_zero_and]
    rw [show emitTV (.and a1 a2) m 40 = emitTV (.and a1 a2) m 0 from by
      rw [emitTV_shape, if_neg (by simp [precedenceOf])]]
    rw [ih1]
    rw [show andHead (.and (.and a1 a2) b) = andHead (.and a1 a2) from rfl,
        show andItems (.and (.and a1 a2) b) = andItems (.and a1 a2) ++ [b] from rfl]
    simp [List.flatMap_append, List.append_assoc]
  | var n => simp [emitTV_zero_and, andHead, andItems]
  | bottom => simp [emitTV_zero_and, andHead, andItems]
  | not x => simp [emitTV_zero_and, andHead, andItems]
  | or l r => simp [emitTV_zero_and, andHead, andItems]
  | implies l r => simp [emitTV_zero_and, andHead, andItems]
  | iff l r => simp [emitTV_zero_and, andHead, andItems]

theorem emit_or_decomp (a b : Formula) (m : DisplayMode) :
    emitTV (.or a b) m 0 =
      emitTV (orHead (.or a b)) m 30 ++
        (orItems (.or a b)).flatMap
          (fun x => (TokType.OR, orVal m) :: emitTV x m 31) := by
  induction a generalizing b with
  | or a1 a2 ih1 _ =>
    rw [emitTV_zero_or]
    rw [show emitTV (.or a1 a2) m 30 = emitTV (.or a1 a2) m 0 from by
      rw [emitTV_shape, if_neg (by simp [precedenceOf])]]
    rw [ih1]
    rw [show orHead (.or (.or a1 a2) b) = orHead (.or a1 a2) from rfl,
        show orItems (.or (.or a1 a2) b) = orItems (.or a1 a2) ++ [b] from rfl]
    simp [List.flatMap_append, List.append_assoc]
  | var n => simp [emitTV_zero_or, orHead, orItems]
  | bottom => simp [emitTV_zero_or, orHead, orItems]
  | not x => simp [emitTV_zero_or, orHead, orItems]
  | and l r => simp [emitTV_zero_or, orHead, orItems]
  | implies l r => simp [emitTV_zero_or, orHead, orItems]
  | iff l r => simp [emitTV_zero_or, orHead, orItems]

theorem emit_iff_decomp (a b : Formula) (m : DisplayMode) :
    emitTV (.iff a b) m 0 =
      emitTV (iffHead (.iff a b)) m 10 ++
        (iffItems (.iff a b)).flatMap
          (fun x => (TokType.IFF, iffVal m) :: emitTV x m 11) := by
  induction a generalizing b with
  | iff a1 a2 ih1 _ =>
    rw [emitTV_zero_iff]
    rw [show emitTV (.iff a1 a2) m 10 = emitTV (.iff a1 a2) m 0 from by
      rw [emitTV_shape, if_neg (by simp [precedenceOf])]]
    rw [ih1]
    rw [show iffHead (.iff (.iff a1 a2) b) = iffHead (.iff a1 a2) from rfl,
        show iffItems (.iff (.iff a1 a2) b) = iffItems (.iff a1 a2) ++ [b] from rfl]
    simp [List.flatMap_append, List.append_assoc]
  | var n => simp [emitTV_zero_iff, iffHead, iffItems]
  | bottom => simp [emitTV_zero_iff, iffHead, iffItems]
  | not x => simp [emitTV_zero_iff, iffHead, iffItems]
  | and l r => simp [emitTV_zero_iff, iffHead, iffItems]
  | or l r => simp [emitTV_zero_iff, iffHead, iffItems]
  | implies l r => simp [emitTV_zero_iff, iffHead, iffItems]

theorem emit_imp_decomp (b : Formula) (m : DisplayMode) : ∀ a,
    emitTV (.implies a b) m 0 =
      (impOps (.implies a b)).flatMap
          (fun x => emitTV x m 21 ++ [(TokType.IMPLIES, impliesVal m)]) ++
        emitTV (impLast (.implies a b)) m 20 := by
  induction b with
  | implies b1 b2 _ ih2 =>
    intro a
    rw [emitTV_zero_implies]
    rw [show emitTV (.implies b1 b2) m 20 = emitTV (.implies b1 b2) m 0 from by
      rw [emitTV_shape, if_neg (by simp [precedenceOf])]]
    rw [ih2 b1]
    rw [show impOps (.implies a (.implies b1 b2)) =
        a :: impOps (.implies b1 b2) from rfl,
        show impLast (.implies a (.implies b1 b2)) =
        impLast (.implies b1 b2) from rfl]
    simp [List.append_assoc]
  | var n => intro a; simp [emitTV_zero_implies, impOps, impLast]
  | bottom => intro a; simp [emitTV_zero_implies, impOps, impLast]
  | not x => intro a; simp [emitTV_zero_implies, impOps, impLast]
  | and l r => intro a; simp [emitTV_zero_implies, impOps, impLast]
  | or l r => intro a; simp [emitTV_zero_implies, impOps, impLast]
  | iff l r => intro a; simp [emitTV_zero_implies, impOps, impLast]
